import Mathlib

/-!
# Abaddon voice client: UDP transport and voice gateway state machine

A shallow embedding of `src/discord/voiceclient.cpp`.

* Bytes (`uint8_t`) are `Fin 256`; wider machine integers are `Nat` reduced
  explicitly modulo `2^16`, `2^32` or `2^64` where the C++ type wraps.
* libsodium (`crypto_secretbox_easy`, `crypto_secretbox_open_easy`) is an
  external library and is taken as a parameter (`Sodium`).
* The member declarations of `voiceclient.hpp` are not part of the sources at
  hand; the widths `m_sequence : uint16_t`, `m_timestamp : uint32_t`,
  `m_ssrc : uint32_t` and the initial values `0`, `0`, `false` follow the data
  model of the specification.
* `std::vector::operator[]` and `memcpy` do not check bounds; a read outside
  the buffer is undefined behaviour and is modelled as a `Fault`.
-/

namespace Abaddon

/-! ## Bytes and buffers -/

/-- A `uint8_t`. -/
abbrev Byte := Fin 256

/-- Conversion of an `int` / `uint32_t` value to `uint8_t` (truncation). -/
def toByte (n : Nat) : Byte := ⟨n % 256, Nat.mod_lt _ (by decide)⟩

/-- The unsigned value denoted by a big-endian byte string. -/
def beVal (bs : List Byte) : Nat := bs.foldl (fun acc b => acc * 256 + b.val) 0

/-- The bytes `[off, off + len)` of a buffer. -/
def slice (buf : List Byte) (off len : Nat) : List Byte := (buf.drop off).take len

/-- Writing `src` into `dst` starting at offset `off`
(`std::memcpy(dst + off, src, src.size())`). -/
def memcpy (dst : List Byte) (off : Nat) (src : List Byte) : List Byte :=
  dst.take off ++ src ++ dst.drop (off + src.length)

/-- Value of `crypto_secretbox_MACBYTES` in `<sodium.h>`. -/
abbrev crypto_secretbox_MACBYTES : Nat := 16

/-- Value of `crypto_box_MACBYTES` in `<sodium.h>`. -/
abbrev crypto_box_MACBYTES : Nat := 16

/-- The two libsodium entry points used by the voice client.
`crypto_secretbox_easy m n k` is the sealed box written to the output pointer,
`crypto_secretbox_open_easy c n k` is `none` when the call returns non-zero and
the recovered plaintext otherwise. -/
structure Sodium where
  crypto_secretbox_easy : List Byte → List Byte → List Byte → List Byte
  crypto_secretbox_open_easy : List Byte → List Byte → List Byte → Option (List Byte)

/-- Documented size contract of `crypto_secretbox_easy`: the output is
`crypto_secretbox_MACBYTES` bytes longer than the message. -/
def Sodium.SealSize (sd : Sodium) : Prop :=
  ∀ m n k, (sd.crypto_secretbox_easy m n k).length = m.length + crypto_secretbox_MACBYTES

/-- Documented size contract of `crypto_secretbox_open_easy`: it succeeds only
on a ciphertext of at least `crypto_secretbox_MACBYTES` bytes and the plaintext
is that many bytes shorter. -/
def Sodium.OpenSize (sd : Sodium) : Prop :=
  ∀ c n k m, sd.crypto_secretbox_open_easy c n k = some m →
    m.length + crypto_secretbox_MACBYTES = c.length

/-- A 16-byte tag used by the test double `testSodium`. -/
def testTag (m n k : List Byte) : List Byte :=
  List.replicate 16 (toByte (beVal m + beVal n + beVal k))

/-- A test double for libsodium with the same buffer sizes (tag first, then the
message bytes); it is used to instantiate theorems at concrete inputs. -/
def testSodium : Sodium where
  crypto_secretbox_easy := fun m n k => testTag m n k ++ m
  crypto_secretbox_open_easy := fun c n k =>
    if c.length < 16 then none
    else if c.take 16 = testTag (c.drop 16) n k then some (c.drop 16) else none

/-! ## UDPSocket -/

/-- The members of `UDPSocket` that the framing code reads or writes, together
with the function-static `nonce` buffer of `UDPSocket::SendEncrypted`. -/
structure UDPSocket where
  m_running : Bool
  m_server : Option (String × Nat)
  m_secret_key : List Byte
  m_ssrc : Nat
  m_sequence : Nat
  m_timestamp : Nat
  nonce : List Byte
deriving DecidableEq, Repr

/-- A transport right after construction. The counters start at zero and the
static nonce is zero-initialised; `m_ssrc` and `m_secret_key` have no
initialiser and are parameters. -/
def UDPSocket.init (ssrc : Nat) (key : List Byte) : UDPSocket where
  m_running := false
  m_server := none
  m_secret_key := key
  m_ssrc := ssrc
  m_sequence := 0
  m_timestamp := 0
  nonce := List.replicate 24 0

/-- Embedding of `UDPSocket::Connect`. -/
def UDPSocket.Connect (u : UDPSocket) (ip : String) (port : Nat) : UDPSocket :=
  { u with m_server := some (ip, port % 2 ^ 16) }

/-- Embedding of `UDPSocket::Run`. -/
def UDPSocket.Run (u : UDPSocket) : UDPSocket := { u with m_running := true }

/-- Embedding of `UDPSocket::Stop`. -/
def UDPSocket.Stop (u : UDPSocket) : UDPSocket := { u with m_running := false }

/-- Embedding of `UDPSocket::SetSecretKey`. -/
def UDPSocket.SetSecretKey (u : UDPSocket) (key : List Byte) : UDPSocket :=
  { u with m_secret_key := key }

/-- Embedding of `UDPSocket::SetSSRC`. -/
def UDPSocket.SetSSRC (u : UDPSocket) (ssrc : Nat) : UDPSocket :=
  { u with m_ssrc := ssrc % 2 ^ 32 }

/-- The twelve header bytes that `UDPSocket::SendEncrypted` stores into
`rtp[0]` .. `rtp[11]`, written on a buffer `rtp`. -/
def writeHeader (rtp : List Byte) (m_sequence m_timestamp m_ssrc : Nat) : List Byte :=
  let rtp := rtp.set 0 0x80
  let rtp := rtp.set 1 0x78
  let rtp := rtp.set 2 (toByte ((m_sequence >>> 8) &&& 0xFF))
  let rtp := rtp.set 3 (toByte ((m_sequence >>> 0) &&& 0xFF))
  let rtp := rtp.set 4 (toByte ((m_timestamp >>> 24) &&& 0xFF))
  let rtp := rtp.set 5 (toByte ((m_timestamp >>> 16) &&& 0xFF))
  let rtp := rtp.set 6 (toByte ((m_timestamp >>> 8) &&& 0xFF))
  let rtp := rtp.set 7 (toByte ((m_timestamp >>> 0) &&& 0xFF))
  let rtp := rtp.set 8 (toByte ((m_ssrc >>> 24) &&& 0xFF))
  let rtp := rtp.set 9 (toByte ((m_ssrc >>> 16) &&& 0xFF))
  let rtp := rtp.set 10 (toByte ((m_ssrc >>> 8) &&& 0xFF))
  let rtp := rtp.set 11 (toByte ((m_ssrc >>> 0) &&& 0xFF))
  rtp

/-- Embedding of `UDPSocket::SendEncrypted`: the new transport state and the
buffer handed to `UDPSocket::Send`. -/
def UDPSocket.SendEncrypted (sd : Sodium) (u : UDPSocket) (data : List Byte) :
    UDPSocket × List Byte :=
  let m_sequence := (u.m_sequence + 1) % 2 ^ 16
  let m_timestamp := (u.m_timestamp + 480) % 2 ^ 32
  let rtp : List Byte := List.replicate (12 + data.length + crypto_secretbox_MACBYTES) 0
  let rtp := writeHeader rtp m_sequence m_timestamp u.m_ssrc
  let nonce := memcpy u.nonce 0 (slice rtp 0 12)
  let rtp := memcpy rtp 12 (sd.crypto_secretbox_easy data nonce u.m_secret_key)
  ({ u with m_sequence := m_sequence, m_timestamp := m_timestamp, nonce := nonce }, rtp)

/-- Successive calls of `UDPSocket::SendEncrypted`, one per payload, with the
datagrams in send order. -/
def UDPSocket.sendAll (sd : Sodium) : UDPSocket → List (List Byte) → UDPSocket × List (List Byte)
  | u, [] => (u, [])
  | u, p :: ps =>
    let r := u.SendEncrypted sd p
    let rs := UDPSocket.sendAll sd r.1 ps
    (rs.1, r.2 :: rs.2)

/-- The big-endian encoding of a 16-bit value. -/
def be16 (n : Nat) : List Byte := [toByte (n / 2 ^ 8), toByte n]

/-- The big-endian encoding of a 32-bit value. -/
def be32 (n : Nat) : List Byte :=
  [toByte (n / 2 ^ 24), toByte (n / 2 ^ 16), toByte (n / 2 ^ 8), toByte n]

/-- The RTP header of the framing table: version byte, payload type, then
sequence, timestamp and SSRC in big-endian order. -/
def rtpHeader (seq ts ssrc : Nat) : List Byte :=
  [0x80, 0x78] ++ be16 seq ++ be32 ts ++ be32 ssrc

/-- The static nonce buffer is 24 bytes long and its last 12 bytes are zero. -/
def NonceTailZero (nonce : List Byte) : Prop :=
  nonce.length = 24 ∧ nonce.drop 12 = List.replicate 12 0

/-! ## Unchecked buffer reads -/

/-- Undefined behaviour of the C++ code that the embedding makes explicit. -/
inductive Fault where
  /-- A read of `buf[index]` on a buffer of `size <= index` bytes. -/
  | outOfBounds (index size : Nat)
  /-- A range read of `len` bytes at `off` that leaves a buffer of `size` bytes. -/
  | rangeOutOfBounds (off len size : Nat)
  /-- A C string that is not terminated inside its buffer of `size` bytes. -/
  | unterminated (off size : Nat)
  /-- An iterator range whose end lies before its start. -/
  | badRange (size : Nat)
deriving DecidableEq, Repr

/-- One element read `buf[i]` of a `std::vector<uint8_t>`. -/
def readAt (buf : List Byte) (i : Nat) : Except Fault Byte :=
  match buf[i]? with
  | some b => .ok b
  | none => .error (.outOfBounds i buf.length)

/-- A read of the `len` bytes starting at `buf.data() + off`. -/
def readRange (buf : List Byte) (off len : Nat) : Except Fault (List Byte) :=
  if off + len ≤ buf.length then .ok (slice buf off len)
  else .error (.rangeOutOfBounds off len buf.length)

/-- Reading the NUL-terminated string at `&buf[off]` (conversion of a
`const char *` to `std::string_view`). -/
def readCString (buf : List Byte) (off : Nat) : Except Fault (List Byte) :=
  if (0 : Byte) ∈ buf.drop off then .ok ((buf.drop off).takeWhile (fun b => b != 0))
  else .error (.unterminated off buf.length)

/-! ## Voice gateway messages -/

/-- An incoming gateway message after `nlohmann::json::parse` and `from_json`,
by opcode. -/
inductive VoiceGatewayMessage where
  | Hello (heartbeat_interval : Nat)
  | Ready (ip : String) (port : Nat) (ssrc : Nat) (modes : List String)
  | SessionDescription (mode : String) (secret_key : List Byte)
  | Speaking (user_id : Nat) (ssrc : Nat) (speaking : Nat)
  | Other (opcode : Nat)
deriving DecidableEq, Repr

/-- An outgoing gateway message, before `to_json`. -/
inductive VoiceOutMessage where
  | Identify (server_id user_id : Nat) (session_id token : String) (video : Bool)
  | SelectProtocol (address : List Byte) (port : Nat) (protocol mode : String)
  | Heartbeat (nonce : Nat)
  | Speaking (speaking delay ssrc : Nat)
deriving DecidableEq, Repr

/-- Calls that the voice client makes on its collaborators (WebSocket, UDP
transport, audio manager) and the signals it emits, in program order. -/
inductive Effect where
  | wsStartConnection (url : String)
  | wsStop
  | wsSend (msg : VoiceOutMessage)
  | udpConnect (ip : String) (port : Nat)
  | udpSetSSRC (ssrc : Nat)
  | udpSetSecretKey (key : List Byte)
  /-- A call of `UDPSocket::SendEncrypted` with the datagram it hands to `Send`. -/
  | udpSendEncrypted (payload datagram : List Byte)
  /-- A direct (unframed) call of `UDPSocket::Send`. -/
  | udpSend (bytes : List Byte)
  | udpRun
  | udpStop
  | signal_connected
  | signal_disconnected
  | signal_speaking (user_id ssrc speaking : Nat)
  | FeedMeOpus (ssrc : Nat) (payload : List Byte)
deriving DecidableEq, Repr

/-! ## DiscordVoiceClient -/

/-- Assignment `m[k] = v` on a `std::unordered_map`, kept as an association
list: an existing entry for `k` is overwritten, otherwise one is added. -/
def mapAssign : List (Nat × Nat) → Nat → Nat → List (Nat × Nat)
  | [], k, v => [(k, v)]
  | (k1, v1) :: rest, k, v =>
    if k1 = k then (k, v) :: rest else (k1, v1) :: mapAssign rest k v

/-- The members of `DiscordVoiceClient`, together with the function-static
`nonce` buffer of `DiscordVoiceClient::OnUDPData`. Timer and thread handles
carry no data; the periodic threads are environment events. -/
structure DiscordVoiceClient where
  m_session_id : String
  m_endpoint : String
  m_token : String
  m_server_id : Nat
  m_user_id : Nat
  m_ssrc_map : List (Nat × Nat)
  m_secret_key : List Byte
  m_ip : String
  m_port : Nat
  m_ssrc : Nat
  m_heartbeat_msec : Nat
  m_udp : UDPSocket
  m_connected : Bool
  nonce : List Byte
deriving DecidableEq, Repr

/-- A client right after construction: not connected, empty SSRC map,
zero-initialised static nonce. Members without initialiser (`m_ssrc`,
`m_secret_key`) are parameters. -/
def DiscordVoiceClient.init (ssrc : Nat) (key : List Byte) : DiscordVoiceClient where
  m_session_id := ""
  m_endpoint := ""
  m_token := ""
  m_server_id := 0
  m_user_id := 0
  m_ssrc_map := []
  m_secret_key := key
  m_ip := ""
  m_port := 0
  m_ssrc := ssrc
  m_heartbeat_msec := 0
  m_udp := UDPSocket.init ssrc key
  m_connected := false
  nonce := List.replicate 24 0

/-- Embedding of `DiscordVoiceClient::GetSSRCOfUser`. -/
def DiscordVoiceClient.GetSSRCOfUser (c : DiscordVoiceClient) (id : Nat) : Option Nat :=
  c.m_ssrc_map.lookup id

/-- Embedding of `DiscordVoiceClient::IsConnected`. -/
def DiscordVoiceClient.IsConnected (c : DiscordVoiceClient) : Bool := c.m_connected

/-- Embedding of `DiscordVoiceClient::Start`. -/
def DiscordVoiceClient.Start (c : DiscordVoiceClient) : DiscordVoiceClient × List Effect :=
  ({ c with m_connected := true },
    [.wsStartConnection ("wss://" ++ c.m_endpoint ++ "/?v=7"), .signal_connected])

/-- Embedding of `DiscordVoiceClient::Stop`. -/
def DiscordVoiceClient.Stop (c : DiscordVoiceClient) : DiscordVoiceClient × List Effect :=
  let c := { c with m_udp := c.m_udp.Stop }
  if c.m_connected then
    ({ c with m_connected := false }, [.wsStop, .udpStop, .signal_disconnected])
  else
    (c, [.wsStop, .udpStop])

/-- The handler connected to the audio manager's `signal_opus_packet` in the
constructor; `payload` is the first `payload_size` bytes of `m_opus_buffer`. -/
def DiscordVoiceClient.OnOpusPacket (sd : Sodium) (c : DiscordVoiceClient)
    (payload : List Byte) : DiscordVoiceClient × List Effect :=
  if c.m_connected then
    let r := c.m_udp.SendEncrypted sd payload
    ({ c with m_udp := r.1 }, [.udpSendEncrypted payload r.2])
  else
    (c, [])

/-- Embedding of `DiscordVoiceClient::Identify`. -/
def DiscordVoiceClient.Identify (c : DiscordVoiceClient) : List Effect :=
  [.wsSend (.Identify c.m_server_id c.m_user_id c.m_session_id c.m_token true)]

/-- Embedding of `DiscordVoiceClient::SelectProtocol`. -/
def DiscordVoiceClient.SelectProtocol (ip : List Byte) (port : Nat) : List Effect :=
  [.wsSend (.SelectProtocol ip port "udp" "xsalsa20_poly1305")]

/-- The request that `DiscordVoiceClient::Discovery` builds with `push_back`. -/
def DiscordVoiceClient.discoveryPayload (m_ssrc : Nat) : List Byte :=
  let payload : List Byte := []
  let payload := payload ++ [0x00]
  let payload := payload ++ [0x01]
  let payload := payload ++ [0x00]
  let payload := payload ++ [70]
  let payload := payload ++ [toByte ((m_ssrc >>> 24) &&& 0xFF)]
  let payload := payload ++ [toByte ((m_ssrc >>> 16) &&& 0xFF)]
  let payload := payload ++ [toByte ((m_ssrc >>> 8) &&& 0xFF)]
  let payload := payload ++ [toByte ((m_ssrc >>> 0) &&& 0xFF)]
  (List.range 66).foldl (fun payload _ => payload ++ [0]) payload

/-- The parsing half of `DiscordVoiceClient::Discovery`: `some (our_ip,
our_port)` when the response passes the guard, `none` when it does not. -/
def DiscordVoiceClient.discoveryParse (response : List Byte) :
    Except Fault (Option (List Byte × Nat)) :=
  if response.length ≥ 74 then do
    let r0 ← readAt response 0
    if r0 = 0x00 then do
      let r1 ← readAt response 1
      if r1 = 0x02 then do
        let hi ← readAt response 73
        let lo ← readAt response 74
        let our_port := ((hi.val <<< 8) ||| lo.val) % 2 ^ 16
        let our_ip ← readCString response 8
        pure (some (our_ip, our_port))
      else pure none
    else pure none
  else pure none

/-- Embedding of `DiscordVoiceClient::Discovery`; `response` is what
`m_udp.Receive()` returns. The effects up to a fault are kept. -/
def DiscordVoiceClient.Discovery (c : DiscordVoiceClient) (response : List Byte) :
    List Effect × Option Fault :=
  let sent := [Effect.udpSend (DiscordVoiceClient.discoveryPayload c.m_ssrc)]
  match DiscordVoiceClient.discoveryParse response with
  | .ok (some (our_ip, our_port)) =>
    (sent ++ DiscordVoiceClient.SelectProtocol our_ip our_port, none)
  | .ok none => (sent, none)
  | .error f => (sent, some f)

/-- Embedding of `DiscordVoiceClient::HandleGatewayHello`. -/
def DiscordVoiceClient.HandleGatewayHello (c : DiscordVoiceClient) (heartbeat_interval : Nat) :
    DiscordVoiceClient × List Effect :=
  let c := { c with m_heartbeat_msec := heartbeat_interval }
  (c, c.Identify)

/-- Embedding of `DiscordVoiceClient::HandleGatewayReady`. -/
def DiscordVoiceClient.HandleGatewayReady (c : DiscordVoiceClient) (ip : String)
    (port ssrc : Nat) (response : List Byte) :
    DiscordVoiceClient × List Effect × Option Fault :=
  let c := { c with m_ip := ip, m_port := port % 2 ^ 16, m_ssrc := ssrc % 2 ^ 32 }
  let c := { c with m_udp := c.m_udp.Connect c.m_ip c.m_port }
  let r := c.Discovery response
  (c, Effect.udpConnect c.m_ip c.m_port :: r.1, r.2)

/-- The Opus silence frame sent five times after SessionDescription. -/
def silenceFrame : List Byte := [0xF8, 0xFF, 0xFE]

/-- Embedding of `DiscordVoiceClient::HandleGatewaySessionDescription`. -/
def DiscordVoiceClient.HandleGatewaySessionDescription (sd : Sodium) (c : DiscordVoiceClient)
    (secret_key : List Byte) : DiscordVoiceClient × List Effect :=
  let msg := VoiceOutMessage.Speaking 1 0 c.m_ssrc
  let c := { c with m_secret_key := secret_key }
  let udp := c.m_udp.SetSSRC c.m_ssrc
  let udp := udp.SetSecretKey c.m_secret_key
  let r1 := udp.SendEncrypted sd silenceFrame
  let r2 := r1.1.SendEncrypted sd silenceFrame
  let r3 := r2.1.SendEncrypted sd silenceFrame
  let r4 := r3.1.SendEncrypted sd silenceFrame
  let r5 := r4.1.SendEncrypted sd silenceFrame
  let udp := r5.1.Run
  ({ c with m_udp := udp },
    [.wsSend msg, .udpSetSSRC c.m_ssrc, .udpSetSecretKey c.m_secret_key,
     .udpSendEncrypted silenceFrame r1.2, .udpSendEncrypted silenceFrame r2.2,
     .udpSendEncrypted silenceFrame r3.2, .udpSendEncrypted silenceFrame r4.2,
     .udpSendEncrypted silenceFrame r5.2, .udpRun])

/-- Embedding of `DiscordVoiceClient::HandleGatewaySpeaking`. -/
def DiscordVoiceClient.HandleGatewaySpeaking (c : DiscordVoiceClient)
    (user_id ssrc speaking : Nat) : DiscordVoiceClient × List Effect :=
  ({ c with m_ssrc_map := mapAssign c.m_ssrc_map user_id ssrc },
    [.signal_speaking user_id ssrc speaking])

/-- Embedding of `DiscordVoiceClient::OnGatewayMessage` on a parsed message. -/
def DiscordVoiceClient.OnGatewayMessage (sd : Sodium) (c : DiscordVoiceClient)
    (msg : VoiceGatewayMessage) (response : List Byte) :
    DiscordVoiceClient × List Effect × Option Fault :=
  match msg with
  | .Hello hb => let r := c.HandleGatewayHello hb; (r.1, r.2, none)
  | .Ready ip port ssrc _ => c.HandleGatewayReady ip port ssrc response
  | .SessionDescription _ key =>
    let r := c.HandleGatewaySessionDescription sd key; (r.1, r.2, none)
  | .Speaking u s f => let r := c.HandleGatewaySpeaking u s f; (r.1, r.2, none)
  | .Other _ => (c, [], none)

/-- Embedding of `DiscordVoiceClient::OnUDPData`. The shifts are taken on
32-bit values, which gives the bit pattern the `uint32_t` conversion yields. -/
def DiscordVoiceClient.OnUDPData (sd : Sodium) (c : DiscordVoiceClient) (data : List Byte) :
    Except Fault (DiscordVoiceClient × List Effect) := do
  let d8 ← readAt data 8
  let d9 ← readAt data 9
  let d10 ← readAt data 10
  let d11 ← readAt data 11
  let ssrc := ((d8.val <<< 24) ||| (d9.val <<< 16) ||| (d10.val <<< 8) ||| (d11.val <<< 0)) % 2 ^ 32
  let header ← readRange data 0 12
  let nonce := memcpy c.nonce 0 header
  let clen := (data.length + 2 ^ 64 - 12) % 2 ^ 64
  let ciphertext ← readRange data 12 clen
  let c := { c with nonce := nonce }
  match sd.crypto_secretbox_open_easy ciphertext nonce c.m_secret_key with
  | none => pure (c, [])
  | some m =>
    let buf := memcpy data 12 m
    if data.length < 12 + crypto_box_MACBYTES then throw (.badRange data.length)
    else pure (c, [.FeedMeOpus ssrc (slice buf 12 (data.length - 12 - crypto_box_MACBYTES))])

/-- The two-byte marker sent by `DiscordVoiceClient::KeepaliveThread`. -/
def KEEPALIVE : List Byte := [0x13, 0x37]

/-- What can happen to a voice client: public calls, WebSocket callbacks, the
audio manager's signal, a datagram seen by the UDP read thread, and one round of
the keepalive or heartbeat loop. `response` is the datagram that a call of
`m_udp.Receive()` made by the handler returns. -/
inductive Event where
  | Start
  | Stop
  | wsClose (code : Nat)
  | wsMessage (msg : VoiceGatewayMessage) (response : List Byte)
  | opusPacket (payload : List Byte)
  | udpData (data : List Byte)
  | keepalive
  | heartbeat (ms : Nat)
deriving DecidableEq, Repr

/-- One event handled by the client: new state, effects, and the fault that
stopped the handler if there was one. -/
def DiscordVoiceClient.step (sd : Sodium) (c : DiscordVoiceClient) (e : Event) :
    DiscordVoiceClient × List Effect × Option Fault :=
  match e with
  | .Start => let r := c.Start; (r.1, r.2, none)
  | .Stop => let r := c.Stop; (r.1, r.2, none)
  | .wsClose _ => let r := c.Stop; (r.1, r.2, none)
  | .wsMessage msg response => c.OnGatewayMessage sd msg response
  | .opusPacket payload => let r := c.OnOpusPacket sd payload; (r.1, r.2, none)
  | .udpData data =>
    if c.m_udp.m_running ∧ 0 < data.length then
      match c.OnUDPData sd (data.take 4096) with
      | .ok r => (r.1, r.2, none)
      | .error f => (c, [], some f)
    else (c, [], none)
  | .keepalive =>
    if c.IsConnected then (c, [.udpSend KEEPALIVE], none) else (c, [], none)
  | .heartbeat ms => (c, [.wsSend (.Heartbeat (ms % 2 ^ 64))], none)

/-- A run of the client over a list of events; it ends at the first fault. -/
def DiscordVoiceClient.run (sd : Sodium) :
    DiscordVoiceClient → List Event → DiscordVoiceClient × List Effect × Option Fault
  | c, [] => (c, [], none)
  | c, e :: es =>
    match c.step sd e with
    | (c1, l1, some f) => (c1, l1, some f)
    | (c1, l1, none) =>
      let r := DiscordVoiceClient.run sd c1 es
      (r.1, l1 ++ r.2.1, r.2.2)

/-- The value of `m_connected` that a log of effects implies: starting from
`false`, `signal_connected` sets it and `signal_disconnected` clears it. -/
def connectedAfter (log : List Effect) : Bool :=
  log.foldl (fun b e =>
    if e = Effect.signal_connected then true
    else if e = Effect.signal_disconnected then false else b) false

/-- The values of `m_connected` before the first event of a run and after each
event that the run handles. -/
def DiscordVoiceClient.connectedTrace (sd : Sodium) :
    DiscordVoiceClient → List Event → List Bool
  | c, [] => [c.m_connected]
  | c, e :: es =>
    match c.step sd e with
    | (c1, _, some _) => [c.m_connected, c1.m_connected]
    | (c1, _, none) => c.m_connected :: DiscordVoiceClient.connectedTrace sd c1 es

/-- Number of `false -> true` flips in a sequence of flag values. -/
def risingEdges : List Bool → Nat
  | a :: b :: rest => (if a = false ∧ b = true then 1 else 0) + risingEdges (b :: rest)
  | _ => 0

/-- Number of `true -> false` flips in a sequence of flag values. -/
def fallingEdges : List Bool → Nat
  | a :: b :: rest => (if a = true ∧ b = false then 1 else 0) + fallingEdges (b :: rest)
  | _ => 0

/-- Start, Stop and WebSocket close. -/
def Event.isLifecycle : Event → Bool
  | .Start => true
  | .Stop => true
  | .wsClose _ => true
  | _ => false

/-- Every call of `UDPSocket::SendEncrypted` in the log comes after a call of
`SetSSRC` and a call of `SetSecretKey`. -/
def SendsPrecededBySetters (log : List Effect) : Prop :=
  ∀ pre payload datagram post, log = pre ++ Effect.udpSendEncrypted payload datagram :: post →
    (∃ s, Effect.udpSetSSRC s ∈ pre) ∧ (∃ k, Effect.udpSetSecretKey k ∈ pre)

/-- The effects of a run in program order, each paired with the event whose
handler made it. -/
def DiscordVoiceClient.runTagged (sd : Sodium) :
    DiscordVoiceClient → List Event → List (Event × Effect)
  | _, [] => []
  | c, e :: es =>
    match c.step sd e with
    | (_, l1, some _) => l1.map (fun x => (e, x))
    | (c1, l1, none) => l1.map (fun x => (e, x)) ++ DiscordVoiceClient.runTagged sd c1 es

/-- Every call of `UDPSocket::SendEncrypted` in the tagged log comes after a
call of `SetSSRC` and a call of `SetSecretKey`, or is made by the handler of an
audio-ready event, for the payload of that event, while `m_connected` is true. -/
def SendsAttributed (tlog : List (Event × Effect)) : Prop :=
  ∀ pre ev payload datagram post,
    tlog = pre ++ (ev, Effect.udpSendEncrypted payload datagram) :: post →
    ((∃ s, Effect.udpSetSSRC s ∈ pre.map Prod.snd)
        ∧ (∃ k, Effect.udpSetSecretKey k ∈ pre.map Prod.snd))
      ∨ (ev = Event.opusPacket payload ∧ connectedAfter (pre.map Prod.snd) = true)

/-- No two distinct users are mapped to the same SSRC. -/
def DiscordVoiceClient.SSRCUnique (c : DiscordVoiceClient) : Prop :=
  ∀ u1 u2 s, u1 ≠ u2 → ¬ (c.GetSSRCOfUser u1 = some s ∧ c.GetSSRCOfUser u2 = some s)

/-- Every Speaking event of the run assigns an SSRC that no other user holds at
the moment the event is handled. -/
def DiscordVoiceClient.SpeakingFresh (sd : Sodium) : DiscordVoiceClient → List Event → Prop
  | _, [] => True
  | c, e :: es =>
    (match e with
      | .wsMessage (.Speaking u s _) _ => ∀ v, v ≠ u → c.GetSSRCOfUser v ≠ some s
      | _ => True)
    ∧ DiscordVoiceClient.SpeakingFresh sd (c.step sd e).1 es

/-- Every direct call of `UDPSocket::Send` in the log carries a discovery
request or the keepalive marker. -/
def RawSendsAllowed (log : List Effect) : Prop :=
  ∀ bytes, Effect.udpSend bytes ∈ log →
    bytes = KEEPALIVE ∨ ∃ ssrc, bytes = DiscordVoiceClient.discoveryPayload ssrc

/-- A 74-byte discovery response: type `00 02`, length 70, SSRC 42, the address
"192.0.2.5" in the 64-byte address field, port 50000 in the last two bytes. -/
def discoveryResponse74 : List Byte :=
  [0x00, 0x02, 0x00, 0x46, 0x00, 0x00, 0x00, 0x2A]
    ++ [49, 57, 50, 46, 48, 46, 50, 46, 53] ++ List.replicate 55 0 ++ [0xC3, 0x50]

/-- An all-zero 32-byte secret key. -/
def zeroKey : List Byte := List.replicate 32 0

/-- A transport with SSRC 42 and the all-zero key, right after construction. -/
def exampleSocket : UDPSocket := UDPSocket.init 42 zeroKey

/-- A client with the all-zero key, right after construction. -/
def exampleClient : DiscordVoiceClient := DiscordVoiceClient.init 42 zeroKey

/-- The payload "hello". -/
def helloPayload : List Byte := [104, 101, 108, 108, 111]

/-- An inbound RTP packet with sequence 1, timestamp 480 and SSRC 7 whose body
is "hello" sealed by `testSodium` under the all-zero key. -/
def inboundExample : List Byte :=
  rtpHeader 1 480 7
    ++ testSodium.crypto_secretbox_easy helloPayload
        (rtpHeader 1 480 7 ++ List.replicate 12 0) zeroKey

/-! ## Theorems -/

/-! ### Bytes and big-endian values -/

theorem toByte_val (n : Nat) : (toByte n).val = n % 256 := rfl

theorem shr_mask (n k : Nat) : (n >>> k) &&& 0xFF = n / 2 ^ k % 256 := by
  rw [Nat.shiftRight_eq_div_pow]
  exact Nat.and_pow_two_sub_one_eq_mod _ 8

theorem toByte_mod (n : Nat) : toByte (n % 256) = toByte n := by
  apply Fin.ext
  simp [toByte]

theorem toByte_shr_mask (n k : Nat) : toByte ((n >>> k) &&& 0xFF) = toByte (n / 2 ^ k) := by
  rw [shr_mask, toByte_mod]

theorem toByte_mask (n : Nat) : toByte (n &&& 255) = toByte n := by
  have h := toByte_shr_mask n 0
  simpa using h

theorem beVal_be16 (n : Nat) : beVal (be16 n) = n % 2 ^ 16 := by
  simp only [beVal, be16, List.foldl, toByte_val]
  omega

theorem beVal_be32 (n : Nat) : beVal (be32 n) = n % 2 ^ 32 := by
  simp only [beVal, be32, List.foldl, toByte_val]
  omega

/-! ### UDPSocket::SendEncrypted -/

theorem replicate_twelve_add (k : Nat) (z : Byte) :
    List.replicate (12 + k) z = [z, z, z, z, z, z, z, z, z, z, z, z] ++ List.replicate k z := by
  rw [List.replicate_add]
  rfl

theorem rtpHeader_length (seq ts ssrc : Nat) : (rtpHeader seq ts ssrc).length = 12 := rfl

/-- The header written on a zeroed buffer of `12 + k` bytes. -/
theorem writeHeader_replicate (k seq ts ssrc : Nat) :
    writeHeader (List.replicate (12 + k) 0) seq ts ssrc
      = rtpHeader seq ts ssrc ++ List.replicate k 0 := by
  rw [replicate_twelve_add]
  simp [writeHeader, toByte_mask, Nat.shiftRight_eq_div_pow, be16, be32, rtpHeader]

theorem slice_header (h t : List Byte) (hl : h.length = 12) : slice (h ++ t) 0 12 = h := by
  simp [slice, List.take_append_of_le_length, hl]

theorem memcpy_nonce (nonce h : List Byte) (hl : h.length = 12) :
    memcpy nonce 0 h = h ++ nonce.drop 12 := by
  simp [memcpy, hl]

theorem memcpy_body (h t src : List Byte) (hl : h.length = 12) (ht : t.length = src.length) :
    memcpy (h ++ t) 12 src = h ++ src := by
  unfold memcpy
  rw [List.take_append_of_le_length (by omega), List.take_of_length_le (by omega),
    List.drop_eq_nil_of_le (by simp; omega), List.append_nil]

theorem SendEncrypted_nonce (sd : Sodium) (u : UDPSocket) (data : List Byte) :
    (u.SendEncrypted sd data).1.nonce
      = rtpHeader ((u.m_sequence + 1) % 2 ^ 16) ((u.m_timestamp + 480) % 2 ^ 32) u.m_ssrc
          ++ u.nonce.drop 12 := by
  simp only [UDPSocket.SendEncrypted, crypto_secretbox_MACBYTES]
  rw [Nat.add_assoc, writeHeader_replicate, slice_header _ _ (rtpHeader_length _ _ _),
    memcpy_nonce _ _ (rtpHeader_length _ _ _)]

theorem SendEncrypted_datagram (sd : Sodium) (hs : sd.SealSize) (u : UDPSocket)
    (data : List Byte) :
    (u.SendEncrypted sd data).2
      = rtpHeader ((u.m_sequence + 1) % 2 ^ 16) ((u.m_timestamp + 480) % 2 ^ 32) u.m_ssrc
        ++ sd.crypto_secretbox_easy data
            (rtpHeader ((u.m_sequence + 1) % 2 ^ 16) ((u.m_timestamp + 480) % 2 ^ 32) u.m_ssrc
              ++ u.nonce.drop 12) u.m_secret_key := by
  simp only [UDPSocket.SendEncrypted, crypto_secretbox_MACBYTES]
  rw [Nat.add_assoc, writeHeader_replicate, slice_header _ _ (rtpHeader_length _ _ _),
    memcpy_nonce _ _ (rtpHeader_length _ _ _)]
  rw [memcpy_body _ _ _ (rtpHeader_length _ _ _)]
  simp [hs _ _ _, crypto_secretbox_MACBYTES]

theorem SendEncrypted_seq (sd : Sodium) (u : UDPSocket) (data : List Byte) :
    (u.SendEncrypted sd data).1.m_sequence = (u.m_sequence + 1) % 2 ^ 16 := rfl
theorem SendEncrypted_ts (sd : Sodium) (u : UDPSocket) (data : List Byte) :
    (u.SendEncrypted sd data).1.m_timestamp = (u.m_timestamp + 480) % 2 ^ 32 := rfl
theorem SendEncrypted_ssrc (sd : Sodium) (u : UDPSocket) (data : List Byte) :
    (u.SendEncrypted sd data).1.m_ssrc = u.m_ssrc := rfl
theorem SendEncrypted_key (sd : Sodium) (u : UDPSocket) (data : List Byte) :
    (u.SendEncrypted sd data).1.m_secret_key = u.m_secret_key := rfl

theorem SendEncrypted_take12 (sd : Sodium) (u : UDPSocket) (data : List Byte) :
    (u.SendEncrypted sd data).2.take 12
      = rtpHeader ((u.m_sequence + 1) % 2 ^ 16) ((u.m_timestamp + 480) % 2 ^ 32) u.m_ssrc := by
  simp only [UDPSocket.SendEncrypted, crypto_secretbox_MACBYTES]
  rw [Nat.add_assoc, writeHeader_replicate]
  simp only [memcpy]
  rw [List.take_append_of_le_length (by simp [rtpHeader_length]), List.append_assoc,
    List.take_append_of_le_length (by simp [rtpHeader_length])]
  simp [rtpHeader_length, List.take_of_length_le]

theorem slice_seq_of_take12 (d : List Byte) (seq ts ssrc : Nat)
    (h : d.take 12 = rtpHeader seq ts ssrc) :
    slice d 2 2 = be16 seq ∧ slice d 4 4 = be32 ts ∧ slice d 8 4 = be32 ssrc
      ∧ slice d 0 2 = [0x80, 0x78] := by
  have e2 : slice d 2 2 = slice (d.take 12) 2 2 := by
    simp [slice, List.take_drop, List.take_take]
  have e4 : slice d 4 4 = slice (d.take 12) 4 4 := by
    simp [slice, List.take_drop, List.take_take]
  have e8 : slice d 8 4 = slice (d.take 12) 8 4 := by
    simp [slice, List.take_drop, List.take_take]
  have e0 : slice d 0 2 = slice (d.take 12) 0 2 := by
    simp [slice, List.take_drop, List.take_take]
  rw [e2, e4, e8, e0, h]
  simp [slice, rtpHeader, be16, be32]

theorem sendAll_state (sd : Sodium) (ps : List (List Byte)) :
    ∀ u : UDPSocket,
      (UDPSocket.sendAll sd u ps).1.m_sequence % 2 ^ 16 = (u.m_sequence + ps.length) % 2 ^ 16
      ∧ (UDPSocket.sendAll sd u ps).1.m_timestamp % 2 ^ 32
          = (u.m_timestamp + 480 * ps.length) % 2 ^ 32
      ∧ (UDPSocket.sendAll sd u ps).1.m_ssrc = u.m_ssrc := by
  induction ps with
  | nil => intro u; simp [UDPSocket.sendAll]
  | cons p ps ih =>
    intro u
    obtain ⟨h1, h2, h3⟩ := ih (u.SendEncrypted sd p).1
    simp only [UDPSocket.sendAll, List.length_cons]
    rw [h1, h2, h3, SendEncrypted_seq, SendEncrypted_ts, SendEncrypted_ssrc]
    refine ⟨?_, ?_, rfl⟩ <;> omega

theorem sendAll_getElem (sd : Sodium) (ps : List (List Byte)) :
    ∀ (u : UDPSocket) (i : Nat), i < ps.length →
      ∃ p, ps[i]? = some p ∧
        (UDPSocket.sendAll sd u ps).2[i]?
          = some ((UDPSocket.sendAll sd u (ps.take i)).1.SendEncrypted sd p).2 := by
  induction ps with
  | nil => intro u i h; simp at h
  | cons q ps ih =>
    intro u i h
    cases i with
    | zero => exact ⟨q, by simp, by simp [UDPSocket.sendAll]⟩
    | succ i =>
      obtain ⟨p, hp, hd⟩ := ih (u.SendEncrypted sd q).1 i (by simpa using h)
      exact ⟨p, by simpa using hp, by simpa [UDPSocket.sendAll] using hd⟩

/-- The header of the `(i+1)`-th datagram sent from a fresh transport. -/
theorem sendAll_header (sd : Sodium) (ssrc : Nat) (key : List Byte) (ps : List (List Byte))
    (i : Nat) (h : i < ps.length) :
    ∃ d, (UDPSocket.sendAll sd (UDPSocket.init ssrc key) ps).2[i]? = some d
      ∧ d.take 12 = rtpHeader ((i + 1) % 2 ^ 16) ((480 * (i + 1)) % 2 ^ 32) ssrc := by
  obtain ⟨p, _, hd⟩ := sendAll_getElem sd ps (UDPSocket.init ssrc key) i h
  refine ⟨_, hd, ?_⟩
  obtain ⟨h1, h2, h3⟩ := sendAll_state sd (ps.take i) (UDPSocket.init ssrc key)
  rw [SendEncrypted_take12, h3]
  have hl : (ps.take i).length = i := by simp; omega
  rw [hl] at h1 h2
  have z1 : (UDPSocket.init ssrc key).m_sequence = 0 := rfl
  have z2 : (UDPSocket.init ssrc key).m_timestamp = 0 := rfl
  rw [z1] at h1
  rw [z2] at h2
  generalize (UDPSocket.sendAll sd (UDPSocket.init ssrc key) (List.take i ps)).1 = st at h1 h2
  have e1 : (st.m_sequence + 1) % 2 ^ 16 = (i + 1) % 2 ^ 16 := by omega
  have e2 : (st.m_timestamp + 480) % 2 ^ 32 = (480 * (i + 1)) % 2 ^ 32 := by omega
  rw [e1, e2]
  rfl

/-- C1: starting from a fresh transport (sequence 0, timestamp 0), the datagram
built by the N-th call of `UDPSocket::SendEncrypted` (N >= 1, any payloads)
carries `N mod 2^16` big-endian in bytes 2-3 and `480 * N mod 2^32` big-endian
in bytes 4-7. The first packet carries sequence 1 and timestamp 480. From one
packet to the next the sequence advances by 1 modulo 2^16 and the timestamp by
480 modulo 2^32, so the packet after sequence 0xFFFF carries sequence 0. -/
theorem C1_sequence_timestamp (sd : Sodium) (ssrc : Nat) (key : List Byte)
    (payloads : List (List Byte)) (N : Nat) (h1 : 1 ≤ N) (hN : N ≤ payloads.length) :
    ∃ d, (UDPSocket.sendAll sd (UDPSocket.init ssrc key) payloads).2[N - 1]? = some d
      ∧ slice d 2 2 = be16 (N % 2 ^ 16) ∧ beVal (slice d 2 2) = N % 2 ^ 16
      ∧ slice d 4 4 = be32 ((480 * N) % 2 ^ 32) ∧ beVal (slice d 4 4) = (480 * N) % 2 ^ 32
      ∧ (N = 1 → beVal (slice d 2 2) = 1 ∧ beVal (slice d 4 4) = 480)
      ∧ (N + 1 ≤ payloads.length →
          ∃ d1, (UDPSocket.sendAll sd (UDPSocket.init ssrc key) payloads).2[N]? = some d1
            ∧ beVal (slice d1 2 2) = (beVal (slice d 2 2) + 1) % 2 ^ 16
            ∧ beVal (slice d1 4 4) = (beVal (slice d 4 4) + 480) % 2 ^ 32
            ∧ (beVal (slice d 2 2) = 0xFFFF → beVal (slice d1 2 2) = 0x0000)) := by
  obtain ⟨d, hd, ht⟩ := sendAll_header sd ssrc key payloads (N - 1) (by omega)
  have hN1 : N - 1 + 1 = N := by omega
  rw [hN1] at ht
  obtain ⟨s2, s4, _, _⟩ := slice_seq_of_take12 d _ _ _ ht
  have v2 : beVal (slice d 2 2) = N % 2 ^ 16 := by rw [s2, beVal_be16]; omega
  have v4 : beVal (slice d 4 4) = (480 * N) % 2 ^ 32 := by rw [s4, beVal_be32]; omega
  refine ⟨d, hd, s2, v2, s4, v4, ?_, ?_⟩
  · intro h; subst h; rw [v2, v4]; decide
  · intro hN2
    obtain ⟨d1, hd1, ht1⟩ := sendAll_header sd ssrc key payloads N (by omega)
    obtain ⟨t2, t4, _, _⟩ := slice_seq_of_take12 d1 _ _ _ ht1
    refine ⟨d1, hd1, ?_, ?_, ?_⟩
    · rw [t2, beVal_be16, v2]; omega
    · rw [t4, beVal_be32, v4]; omega
    · rw [t2, beVal_be16, v2]; omega

theorem nonceTailZero_init : NonceTailZero (List.replicate 24 (0 : Byte)) := by
  constructor <;> simp

theorem nonceTailZero_step (nonce h : List Byte) (hl : h.length = 12)
    (hn : NonceTailZero nonce) :
    h ++ nonce.drop 12 = h ++ List.replicate 12 0 ∧ NonceTailZero (h ++ nonce.drop 12) := by
  obtain ⟨_, h2⟩ := hn
  rw [h2]
  refine ⟨rfl, ?_, ?_⟩
  · simp [hl]
  · rw [List.drop_append_of_le_length (by omega), List.drop_of_length_le (by omega)]
    rfl

/-- C1 at a concrete input: the second of two silence frames. -/
theorem C1_sequence_timestamp_witness :
    1 ≤ 2 ∧ 2 ≤ [silenceFrame, silenceFrame].length
      ∧ ∃ d, (UDPSocket.sendAll testSodium (UDPSocket.init 42 zeroKey)
                [silenceFrame, silenceFrame]).2[2 - 1]? = some d
          ∧ slice d 2 2 = be16 (2 % 2 ^ 16) ∧ beVal (slice d 2 2) = 2 % 2 ^ 16
          ∧ slice d 4 4 = be32 ((480 * 2) % 2 ^ 32) ∧ beVal (slice d 4 4) = (480 * 2) % 2 ^ 32
          ∧ (2 = 1 → beVal (slice d 2 2) = 1 ∧ beVal (slice d 4 4) = 480)
          ∧ (2 + 1 ≤ [silenceFrame, silenceFrame].length →
              ∃ d1, (UDPSocket.sendAll testSodium (UDPSocket.init 42 zeroKey)
                      [silenceFrame, silenceFrame]).2[2]? = some d1
                ∧ beVal (slice d1 2 2) = (beVal (slice d 2 2) + 1) % 2 ^ 16
                ∧ beVal (slice d1 4 4) = (beVal (slice d 4 4) + 480) % 2 ^ 32
                ∧ (beVal (slice d 2 2) = 0xFFFF → beVal (slice d1 2 2) = 0x0000)) :=
  ⟨by decide, by decide,
    C1_sequence_timestamp testSodium 42 zeroKey [silenceFrame, silenceFrame] 2
      (by decide) (by decide)⟩

theorem sendAll_nonce (sd : Sodium) (ps : List (List Byte)) :
    ∀ u : UDPSocket, NonceTailZero u.nonce →
      NonceTailZero (UDPSocket.sendAll sd u ps).1.nonce := by
  induction ps with
  | nil => intro u h; exact h
  | cons p ps ih =>
    intro u h
    apply ih
    rw [SendEncrypted_nonce]
    exact (nonceTailZero_step u.nonce _ (rtpHeader_length _ _ _) h).2

theorem testSodium_sealSize : testSodium.SealSize := by
  intro m n k
  simp only [testSodium, testTag, crypto_secretbox_MACBYTES, List.length_append,
    List.length_replicate]
  omega

theorem testSodium_openSize : testSodium.OpenSize := by
  intro c n k m h
  simp only [testSodium] at h
  split at h
  · cases h
  · split at h
    · cases h
      simp only [crypto_secretbox_MACBYTES, List.length_drop]
      omega
    · cases h

/-- C2: for every payload, key, SSRC and counter state, the datagram that
`UDPSocket::SendEncrypted` hands to `Send` is the byte `0x80`, the byte `0x78`,
the incremented sequence (2 bytes, big-endian), the incremented timestamp
(4 bytes, big-endian), the SSRC (4 bytes, big-endian), followed by
`crypto_secretbox_easy payload nonce key`, where the nonce is those 12 header
bytes followed by 12 zero bytes. Its length is `12 + L + 16`, hence 28 for an
empty payload. The static nonce keeps its zero tail, so the same holds on
every later call. -/
theorem C2_datagram_layout (sd : Sodium) (hs : sd.SealSize) (u : UDPSocket)
    (hn : NonceTailZero u.nonce) (payload : List Byte) :
    (u.SendEncrypted sd payload).2
        = [0x80, 0x78] ++ be16 ((u.m_sequence + 1) % 2 ^ 16)
            ++ be32 ((u.m_timestamp + 480) % 2 ^ 32) ++ be32 u.m_ssrc
          ++ sd.crypto_secretbox_easy payload
              (([0x80, 0x78] ++ be16 ((u.m_sequence + 1) % 2 ^ 16)
                  ++ be32 ((u.m_timestamp + 480) % 2 ^ 32) ++ be32 u.m_ssrc)
                ++ List.replicate 12 0) u.m_secret_key
      ∧ (u.SendEncrypted sd payload).1.m_sequence = (u.m_sequence + 1) % 2 ^ 16
      ∧ (u.SendEncrypted sd payload).1.m_timestamp = (u.m_timestamp + 480) % 2 ^ 32
      ∧ slice (u.SendEncrypted sd payload).2 0 2 = [0x80, 0x78]
      ∧ beVal (slice (u.SendEncrypted sd payload).2 2 2) = (u.m_sequence + 1) % 2 ^ 16
      ∧ beVal (slice (u.SendEncrypted sd payload).2 4 4) = (u.m_timestamp + 480) % 2 ^ 32
      ∧ beVal (slice (u.SendEncrypted sd payload).2 8 4) = u.m_ssrc % 2 ^ 32
      ∧ (u.SendEncrypted sd payload).2.length = 12 + payload.length + 16
      ∧ (payload.length = 0 → (u.SendEncrypted sd payload).2.length = 28)
      ∧ NonceTailZero (u.SendEncrypted sd payload).1.nonce
      ∧ (∀ later : List (List Byte),
          NonceTailZero (UDPSocket.sendAll sd (u.SendEncrypted sd payload).1 later).1.nonce) := by
  have hd := SendEncrypted_datagram sd hs u payload
  have ht := SendEncrypted_take12 sd u payload
  have hnz := nonceTailZero_step u.nonce _ (rtpHeader_length ((u.m_sequence + 1) % 2 ^ 16)
    ((u.m_timestamp + 480) % 2 ^ 32) u.m_ssrc) hn
  have hlen : (u.SendEncrypted sd payload).2.length = 12 + payload.length + 16 := by
    rw [hd, List.length_append, rtpHeader_length, hs]
    simp only [crypto_secretbox_MACBYTES]
    omega
  obtain ⟨s2, s4, s8, s0⟩ := slice_seq_of_take12 _ _ _ _ ht
  have hnew : NonceTailZero (u.SendEncrypted sd payload).1.nonce := by
    rw [SendEncrypted_nonce]; exact hnz.2
  refine ⟨?_, rfl, rfl, s0, ?_, ?_, ?_, hlen, ?_, hnew, fun later => sendAll_nonce sd later _ hnew⟩
  · rw [hd, hnz.1]
    rfl
  · rw [s2, beVal_be16]; omega
  · rw [s4, beVal_be32]; omega
  · rw [s8, beVal_be32]
  · intro h0; rw [hlen, h0]

/-- C2 at a concrete input: an empty payload on a fresh transport. -/
theorem C2_datagram_layout_witness :
    testSodium.SealSize ∧ NonceTailZero exampleSocket.nonce
      ∧ (exampleSocket.SendEncrypted testSodium []).2.length = 28
      ∧ (exampleSocket.SendEncrypted testSodium []).2
          = [0x80, 0x78] ++ be16 ((exampleSocket.m_sequence + 1) % 2 ^ 16)
              ++ be32 ((exampleSocket.m_timestamp + 480) % 2 ^ 32) ++ be32 exampleSocket.m_ssrc
            ++ testSodium.crypto_secretbox_easy []
                (([0x80, 0x78] ++ be16 ((exampleSocket.m_sequence + 1) % 2 ^ 16)
                    ++ be32 ((exampleSocket.m_timestamp + 480) % 2 ^ 32)
                    ++ be32 exampleSocket.m_ssrc)
                  ++ List.replicate 12 0) exampleSocket.m_secret_key :=
  ⟨testSodium_sealSize, nonceTailZero_init,
    (C2_datagram_layout testSodium testSodium_sealSize exampleSocket nonceTailZero_init
      []).2.2.2.2.2.2.2.2.1 rfl,
    (C2_datagram_layout testSodium testSodium_sealSize exampleSocket nonceTailZero_init []).1⟩

/-! ### The IP discovery request -/

theorem foldl_push_zero (n : Nat) :
    ∀ l : List Byte, (List.range n).foldl (fun payload _ => payload ++ [0]) l
      = l ++ List.replicate n 0 := by
  induction n with
  | zero => intro l; simp
  | succ n ih =>
    intro l
    rw [List.range_succ, List.foldl_append, ih]
    simp [List.replicate_succ']

theorem discoveryPayload_eq (s : Nat) :
    DiscordVoiceClient.discoveryPayload s
      = [0x00, 0x01, 0x00, 0x46] ++ be32 s ++ List.replicate 66 0 := by
  simp only [DiscordVoiceClient.discoveryPayload]
  rw [foldl_push_zero]
  simp [toByte_mask, Nat.shiftRight_eq_div_pow, be32]

theorem Discovery_effects (c : DiscordVoiceClient) (response : List Byte) :
    ∃ rest, (c.Discovery response).1
        = Effect.udpSend (DiscordVoiceClient.discoveryPayload c.m_ssrc) :: rest
      ∧ (rest = [] ∨ ∃ ip port, rest = DiscordVoiceClient.SelectProtocol ip port) := by
  unfold DiscordVoiceClient.Discovery
  split
  · exact ⟨_, rfl, Or.inr ⟨_, _, rfl⟩⟩
  · exact ⟨_, rfl, Or.inl rfl⟩
  · exact ⟨_, rfl, Or.inl rfl⟩

/-- C8: for every 32-bit SSRC `s`, the only direct UDP send of
`DiscordVoiceClient::Discovery` is the 74-byte request `00 01 00 46`, then `s`
big-endian, then 66 zero bytes; for `s = 42` the first eight bytes are
`00 01 00 46 00 00 00 2A`. -/
theorem C8_discovery_request (c : DiscordVoiceClient) (response : List Byte) (s : Nat)
    (hs : s < 2 ^ 32) (hc : c.m_ssrc = s) :
    ∃ payload rest,
      (c.Discovery response).1 = Effect.udpSend payload :: rest
      ∧ (∀ e ∈ rest, ∀ b, e ≠ Effect.udpSend b)
      ∧ payload.length = 74
      ∧ payload = [0x00, 0x01, 0x00, 0x46] ++ be32 s ++ List.replicate 66 0
      ∧ slice payload 0 2 = [0x00, 0x01]
      ∧ slice payload 2 2 = [0x00, 0x46]
      ∧ beVal (slice payload 4 4) = s
      ∧ slice payload 8 66 = List.replicate 66 0
      ∧ (s = 42 → payload.take 8 = [0x00, 0x01, 0x00, 0x46, 0x00, 0x00, 0x00, 0x2A]) := by
  obtain ⟨rest, hr, hrest⟩ := Discovery_effects c response
  rw [hc] at hr
  refine ⟨_, rest, hr, ?_, ?_, discoveryPayload_eq s, ?_, ?_, ?_, ?_, ?_⟩
  · intro e he b
    rcases hrest with h | ⟨ip, port, h⟩
    · rw [h] at he; simp at he
    · rw [h] at he
      simp only [DiscordVoiceClient.SelectProtocol, List.mem_singleton] at he
      rw [he]; simp
  · rw [discoveryPayload_eq]; simp [be32]
  · rw [discoveryPayload_eq]; rfl
  · rw [discoveryPayload_eq]; rfl
  · rw [discoveryPayload_eq]
    have : slice ([0x00, 0x01, 0x00, 0x46] ++ be32 s ++ List.replicate 66 0) 4 4 = be32 s := by
      simp [slice, be32]
    rw [this, beVal_be32]; omega
  · rw [discoveryPayload_eq]; simp [slice, be32]
  · intro h; subst h; rw [discoveryPayload_eq]; decide

/-- C8 at a concrete input: SSRC 42. -/
theorem C8_discovery_request_witness :
    (42 : Nat) < 2 ^ 32 ∧ exampleClient.m_ssrc = 42
      ∧ ∃ payload rest,
          (exampleClient.Discovery []).1 = Effect.udpSend payload :: rest
          ∧ (∀ e ∈ rest, ∀ b, e ≠ Effect.udpSend b)
          ∧ payload.length = 74
          ∧ payload = [0x00, 0x01, 0x00, 0x46] ++ be32 42 ++ List.replicate 66 0
          ∧ slice payload 0 2 = [0x00, 0x01]
          ∧ slice payload 2 2 = [0x00, 0x46]
          ∧ beVal (slice payload 4 4) = 42
          ∧ slice payload 8 66 = List.replicate 66 0
          ∧ (42 = 42 → payload.take 8 = [0x00, 0x01, 0x00, 0x46, 0x00, 0x00, 0x00, 0x2A]) :=
  ⟨by decide, rfl, C8_discovery_request exampleClient [] 42 (by decide) rfl⟩

/-! ### DiscordVoiceClient::OnUDPData -/

theorem be_or_eq (a b c d : Byte) :
    ((a.val <<< 24) ||| (b.val <<< 16) ||| (c.val <<< 8) ||| (d.val <<< 0)) % 2 ^ 32
      = beVal [a, b, c, d] := by
  have ha := a.isLt
  have hb := b.isLt
  have hc := c.isLt
  have hd := d.isLt
  simp only [Nat.shiftLeft_eq, beVal, List.foldl, pow_zero, Nat.mul_one]
  have e1 : a.val * 2 ^ 24 ||| b.val * 2 ^ 16 = 2 ^ 16 * (a.val * 2 ^ 8 + b.val) := by
    have := Nat.mul_add_lt_is_or (i := 24) (b := b.val * 2 ^ 16) (by omega) a.val
    rw [Nat.mul_comm (a.val) (2 ^ 24), ← this]; omega
  have e2 : 2 ^ 16 * (a.val * 2 ^ 8 + b.val) ||| c.val * 2 ^ 8
      = 2 ^ 8 * ((a.val * 2 ^ 8 + b.val) * 2 ^ 8 + c.val) := by
    have := Nat.mul_add_lt_is_or (i := 16) (b := c.val * 2 ^ 8) (by omega) (a.val * 2 ^ 8 + b.val)
    rw [← this]; omega
  have e3 : 2 ^ 8 * ((a.val * 2 ^ 8 + b.val) * 2 ^ 8 + c.val) ||| d.val
      = ((a.val * 2 ^ 8 + b.val) * 2 ^ 8 + c.val) * 2 ^ 8 + d.val := by
    have := Nat.mul_add_lt_is_or (i := 8) (b := d.val) (by omega)
      ((a.val * 2 ^ 8 + b.val) * 2 ^ 8 + c.val)
    rw [← this]; omega
  rw [e1, e2, e3]
  omega

theorem exists_twelve (data : List Byte) (h : 12 ≤ data.length) :
    ∃ b0 b1 b2 b3 b4 b5 b6 b7 b8 b9 b10 b11 rest,
      data = b0 :: b1 :: b2 :: b3 :: b4 :: b5 :: b6 :: b7 :: b8 :: b9 :: b10 :: b11 :: rest := by
  match data, h with
  | b0 :: b1 :: b2 :: b3 :: b4 :: b5 :: b6 :: b7 :: b8 :: b9 :: b10 :: b11 :: rest, _ =>
    exact ⟨b0, b1, b2, b3, b4, b5, b6, b7, b8, b9, b10, b11, rest, rfl⟩

theorem readAt_of_lt (buf : List Byte) (i : Nat) (h : i < buf.length) :
    readAt buf i = .ok (buf.get ⟨i, h⟩) := by
  simp [readAt, List.getElem?_eq_getElem h]

theorem readAt_of_le (buf : List Byte) (i : Nat) (h : buf.length ≤ i) :
    readAt buf i = .error (.outOfBounds i buf.length) := by
  simp [readAt, List.getElem?_eq_none h]

/-- The body of `OnUDPData` on a datagram of at least 12 bytes. -/
theorem OnUDPData_long (sd : Sodium) (c : DiscordVoiceClient) (data : List Byte)
    (hlen : 12 ≤ data.length) (hsz : data.length < 2 ^ 64) :
    c.OnUDPData sd data =
      match sd.crypto_secretbox_open_easy (data.drop 12) (data.take 12 ++ c.nonce.drop 12)
          c.m_secret_key with
      | none => .ok ({ c with nonce := data.take 12 ++ c.nonce.drop 12 }, [])
      | some m =>
        if data.length < 28 then .error (.badRange data.length)
        else .ok ({ c with nonce := data.take 12 ++ c.nonce.drop 12 },
          [.FeedMeOpus (beVal (slice data 8 4))
            (slice (memcpy data 12 m) 12 (data.length - 28))]) := by
  obtain ⟨b0, b1, b2, b3, b4, b5, b6, b7, b8, b9, b10, b11, rest, rfl⟩ := exists_twelve data hlen
  have hclen : ((b0 :: b1 :: b2 :: b3 :: b4 :: b5 :: b6 :: b7 :: b8 :: b9 :: b10 :: b11
      :: rest).length + 2 ^ 64 - 12) % 2 ^ 64 = rest.length := by
    simp only [List.length_cons] at hsz ⊢
    omega
  unfold DiscordVoiceClient.OnUDPData
  rw [hclen]
  simp only [readAt, readRange, List.getElem?_cons_succ, List.getElem?_cons_zero, be_or_eq,
    crypto_box_MACBYTES]
  simp [slice, memcpy, bind, Except.bind, pure, Except.pure, throw, throwThe,
    MonadExceptOf.throw]
  rw [if_pos (by omega)]

theorem slice_memcpy_plain (data m : List Byte) (hlen : 12 ≤ data.length) :
    slice (memcpy data 12 m) 12 m.length = m := by
  unfold slice memcpy
  rw [List.append_assoc, List.drop_append_of_le_length (by simp; omega)]
  rw [List.drop_of_length_le (by simp), List.nil_append, List.take_append_of_le_length (by omega)]
  simp

/-- C3: on a datagram of at least 12 bytes, `DiscordVoiceClient::OnUDPData`
calls `crypto_secretbox_open_easy` on bytes 12..end with the stored key and
with the nonce made of the first 12 bytes of the datagram followed by 12 zero
bytes. If the call succeeds there is exactly one `FeedMeOpus` call, carrying
the big-endian value of bytes 8-11 and the plaintext of `size - 12 - 16`
bytes; if it fails there is none. In both cases the connection flag, the SSRC
map, the key and the transport are unchanged. -/
theorem C3_inbound_datagram (sd : Sodium) (ho : sd.OpenSize) (c : DiscordVoiceClient)
    (hn : NonceTailZero c.nonce) (data : List Byte) (hlen : 12 ≤ data.length)
    (hsz : data.length < 2 ^ 64) :
    ∃ c1 : DiscordVoiceClient,
      c1.m_connected = c.m_connected ∧ c1.m_ssrc_map = c.m_ssrc_map
      ∧ c1.m_secret_key = c.m_secret_key ∧ c1.m_udp = c.m_udp
      ∧ NonceTailZero c1.nonce
      ∧ ((∃ m, sd.crypto_secretbox_open_easy (data.drop 12)
                (data.take 12 ++ List.replicate 12 0) c.m_secret_key = some m
              ∧ m.length = data.length - 12 - 16
              ∧ c.OnUDPData sd data = .ok (c1, [Effect.FeedMeOpus (beVal (slice data 8 4)) m]))
          ∨ (sd.crypto_secretbox_open_easy (data.drop 12)
                (data.take 12 ++ List.replicate 12 0) c.m_secret_key = none
              ∧ c.OnUDPData sd data = .ok (c1, []))) := by
  have ht : (data.take 12).length = 12 := by simp; omega
  have hz : c.nonce.drop 12 = List.replicate 12 0 := hn.2
  have hbody := OnUDPData_long sd c data hlen hsz
  rw [hz] at hbody
  have hnz : NonceTailZero (data.take 12 ++ List.replicate 12 0) := by
    constructor
    · simp; omega
    · rw [List.drop_append_of_le_length (by omega), List.drop_of_length_le (by omega)]; rfl
  refine ⟨{ c with nonce := data.take 12 ++ List.replicate 12 0 }, rfl, rfl, rfl, rfl, hnz, ?_⟩
  cases hopen : sd.crypto_secretbox_open_easy (data.drop 12)
      (data.take 12 ++ List.replicate 12 0) c.m_secret_key with
  | none =>
    right
    rw [hopen] at hbody
    exact ⟨rfl, hbody⟩
  | some m =>
    left
    rw [hopen] at hbody
    have hm := ho _ _ _ _ hopen
    simp only [crypto_secretbox_MACBYTES, List.length_drop] at hm
    have h28 : ¬ data.length < 28 := by omega
    have hk : data.length - 28 = m.length := by omega
    simp only [h28, if_false] at hbody
    rw [hk, slice_memcpy_plain data m hlen] at hbody
    exact ⟨m, rfl, by omega, hbody⟩

/-- C3 at a concrete input: the packet `inboundExample` on a fresh client. -/
theorem C3_inbound_datagram_witness :
    testSodium.OpenSize ∧ NonceTailZero exampleClient.nonce
      ∧ 12 ≤ inboundExample.length ∧ inboundExample.length < 2 ^ 64
      ∧ ∃ c1 : DiscordVoiceClient,
          c1.m_connected = exampleClient.m_connected
          ∧ c1.m_ssrc_map = exampleClient.m_ssrc_map
          ∧ c1.m_secret_key = exampleClient.m_secret_key ∧ c1.m_udp = exampleClient.m_udp
          ∧ NonceTailZero c1.nonce
          ∧ ((∃ m, testSodium.crypto_secretbox_open_easy (inboundExample.drop 12)
                    (inboundExample.take 12 ++ List.replicate 12 0)
                    exampleClient.m_secret_key = some m
                  ∧ m.length = inboundExample.length - 12 - 16
                  ∧ exampleClient.OnUDPData testSodium inboundExample
                      = .ok (c1, [Effect.FeedMeOpus (beVal (slice inboundExample 8 4)) m]))
              ∨ (testSodium.crypto_secretbox_open_easy (inboundExample.drop 12)
                    (inboundExample.take 12 ++ List.replicate 12 0)
                    exampleClient.m_secret_key = none
                  ∧ exampleClient.OnUDPData testSodium inboundExample = .ok (c1, []))) :=
  ⟨testSodium_openSize, nonceTailZero_init, by decide, by decide,
    C3_inbound_datagram testSodium testSodium_openSize exampleClient nonceTailZero_init
      inboundExample (by decide) (by decide)⟩

/-- The packet `inboundExample` is delivered as `FeedMeOpus 7 "hello"`. -/
theorem OnUDPData_inboundExample :
    ∃ c1, exampleClient.OnUDPData testSodium inboundExample
      = .ok (c1, [Effect.FeedMeOpus 7 helloPayload]) :=
  ⟨_, rfl⟩

/-- A datagram of exactly 12 bytes is dropped without a fault. -/
theorem OnUDPData_twelve (sd : Sodium) (ho : sd.OpenSize) (c : DiscordVoiceClient)
    (data : List Byte) (hlen : data.length = 12) :
    c.OnUDPData sd data = .ok ({ c with nonce := data.take 12 ++ c.nonce.drop 12 }, []) := by
  have hbody := OnUDPData_long sd c data (by omega) (by omega)
  cases hopen : sd.crypto_secretbox_open_easy (data.drop 12)
      (data.take 12 ++ c.nonce.drop 12) c.m_secret_key with
  | none => rw [hopen] at hbody; exact hbody
  | some m =>
    have hm := ho _ _ _ _ hopen
    simp only [crypto_secretbox_MACBYTES, List.length_drop] at hm
    omega

/-- A datagram of fewer than 12 bytes makes `OnUDPData` read outside it. -/
theorem OnUDPData_short (sd : Sodium) (c : DiscordVoiceClient) (data : List Byte)
    (hlen : data.length < 12) :
    ∃ f, c.OnUDPData sd data = .error f := by
  unfold DiscordVoiceClient.OnUDPData
  by_cases h8 : 8 < data.length
  · by_cases h9 : 9 < data.length
    · by_cases h10 : 10 < data.length
      · rw [readAt_of_lt _ _ h8, readAt_of_lt _ _ h9, readAt_of_lt _ _ h10,
          readAt_of_le _ 11 (by omega)]
        exact ⟨_, rfl⟩
      · rw [readAt_of_lt _ _ h8, readAt_of_lt _ _ h9, readAt_of_le _ 10 (by omega)]
        exact ⟨_, rfl⟩
    · rw [readAt_of_lt _ _ h8, readAt_of_le _ 9 (by omega)]
      exact ⟨_, rfl⟩
  · rw [readAt_of_le _ 8 (by omega)]
    exact ⟨_, rfl⟩

/-- C4 (code defect): `DiscordVoiceClient::OnUDPData` has no length check. On
the 5-byte datagram `80 78 00 01 00`, and on the empty datagram, its first read
`data[8]` is outside the buffer; the ciphertext length `data.size() - 12` wraps
to `2^64 - 7`; and the read thread does deliver such a datagram once the
transport runs. -/
theorem C4_short_datagram_reads_out_of_bounds (sd : Sodium) (c : DiscordVoiceClient) :
    c.OnUDPData sd [0x80, 0x78, 0x00, 0x01, 0x00] = .error (.outOfBounds 8 5)
    ∧ c.OnUDPData sd [] = .error (.outOfBounds 8 0)
    ∧ (([0x80, 0x78, 0x00, 0x01, 0x00] : List Byte).length + 2 ^ 64 - 12) % 2 ^ 64
        = 2 ^ 64 - 7
    ∧ ((c.HandleGatewaySessionDescription sd []).1.step sd
        (.udpData [0x80, 0x78, 0x00, 0x01, 0x00])).2.2 = some (.outOfBounds 8 5) := by
  refine ⟨rfl, rfl, by decide, ?_⟩
  rfl

/-! ### The IP discovery response -/

theorem readAt_of_getElem? (buf : List Byte) (i : Nat) (b : Byte) (h : buf[i]? = some b) :
    readAt buf i = .ok b := by
  simp [readAt, h]

/-- On every response of exactly 74 bytes that passes the guard, the port
parser reads index 74. -/
theorem discoveryParse_exact74 (response : List Byte) (hlen : response.length = 74)
    (h0 : response[0]? = some 0x00) (h1 : response[1]? = some 0x02) :
    DiscordVoiceClient.discoveryParse response = .error (.outOfBounds 74 74) := by
  unfold DiscordVoiceClient.discoveryParse
  rw [if_pos (by omega), readAt_of_getElem? _ _ _ h0, readAt_of_getElem? _ _ _ h1,
    readAt_of_lt _ 73 (by omega), readAt_of_le _ 74 (by omega)]
  simp only [bind, Except.bind, if_true, hlen]

/-- A response that fails the guard is rejected without a fault. -/
theorem discoveryParse_rejected (response : List Byte)
    (h : response.length < 74 ∨ response[0]? ≠ some 0x00 ∨ response[1]? ≠ some 0x02) :
    DiscordVoiceClient.discoveryParse response = .ok none := by
  unfold DiscordVoiceClient.discoveryParse
  by_cases hlen : response.length ≥ 74
  · rw [if_pos hlen, readAt_of_lt _ 0 (by omega), readAt_of_lt _ 1 (by omega)]
    have e0 : response[0]? = some (response.get ⟨0, by omega⟩) :=
      List.getElem?_eq_getElem (by omega)
    have e1 : response[1]? = some (response.get ⟨1, by omega⟩) :=
      List.getElem?_eq_getElem (by omega)
    rw [e0, e1] at h
    by_cases c0 : response.get ⟨0, by omega⟩ = 0x00
    · by_cases c1 : response.get ⟨1, by omega⟩ = 0x02
      · rw [c0, c1] at h; simp at h; omega
      · simp only [bind, Except.bind, c0, c1, if_true, if_false]; rfl
    · simp only [bind, Except.bind, c0, if_false]; rfl
  · rw [if_neg hlen]; rfl

theorem be16_or_eq (a b : Byte) : ((a.val <<< 8) ||| b.val) % 2 ^ 16 = beVal [a, b] := by
  have hb := b.isLt
  have ha := a.isLt
  simp only [Nat.shiftLeft_eq, beVal, List.foldl]
  have := Nat.mul_add_lt_is_or (i := 8) (b := b.val) (by omega) a.val
  rw [Nat.mul_comm, ← this]
  omega

theorem slice_two (buf : List Byte) (i : Nat) (h : i + 1 < buf.length) :
    slice buf i 2 = [buf.get ⟨i, by omega⟩, buf.get ⟨i + 1, h⟩] := by
  induction buf generalizing i with
  | nil => simp at h
  | cons x xs ih =>
    cases i with
    | zero =>
      match xs, h with
      | y :: ys, _ => simp [slice]
    | succ i =>
      have := ih i (by simpa using h)
      simpa [slice] using this

/-- A response of at least 75 bytes that passes the guard and holds a
terminated address yields the address and the port at bytes 73-74. -/
theorem discoveryParse_accepted (response : List Byte) (hlen : 75 ≤ response.length)
    (h0 : response[0]? = some 0x00) (h1 : response[1]? = some 0x02)
    (hz : (0 : Byte) ∈ response.drop 8) :
    DiscordVoiceClient.discoveryParse response
      = .ok (some ((response.drop 8).takeWhile (fun b => b != 0), beVal (slice response 73 2))) := by
  unfold DiscordVoiceClient.discoveryParse
  rw [if_pos (by omega), readAt_of_getElem? _ _ _ h0, readAt_of_getElem? _ _ _ h1,
    readAt_of_lt _ 73 (by omega), readAt_of_lt _ 74 (by omega)]
  simp only [readCString, if_pos hz, bind, Except.bind, pure, Except.pure, if_true]
  rw [be16_or_eq, slice_two response 73 (by omega)]

/-- On a response of at least 75 bytes that passes the guard and holds a
terminated address, `Discovery` emits exactly one SelectProtocol, with the
address at offset 8 and the big-endian port of bytes 73-74. -/
theorem Discovery_accepted (c : DiscordVoiceClient) (response : List Byte)
    (hlen : 75 ≤ response.length)
    (h0 : response[0]? = some 0x00) (h1 : response[1]? = some 0x02)
    (hz : (0 : Byte) ∈ response.drop 8) :
    c.Discovery response
      = ([Effect.udpSend (DiscordVoiceClient.discoveryPayload c.m_ssrc),
          Effect.wsSend (.SelectProtocol ((response.drop 8).takeWhile (fun b => b != 0))
            (beVal (slice response 73 2)) "udp" "xsalsa20_poly1305")], none) := by
  unfold DiscordVoiceClient.Discovery
  rw [discoveryParse_accepted response hlen h0 h1 hz]
  rfl

/-- On a response that fails the guard, `Discovery` emits no SelectProtocol. -/
theorem Discovery_rejected (c : DiscordVoiceClient) (response : List Byte)
    (h : response.length < 74 ∨ response[0]? ≠ some 0x00 ∨ response[1]? ≠ some 0x02) :
    c.Discovery response
      = ([Effect.udpSend (DiscordVoiceClient.discoveryPayload c.m_ssrc)], none) := by
  unfold DiscordVoiceClient.Discovery
  rw [discoveryParse_rejected response h]

/-- C7 (code defect): on the 74-byte discovery response `discoveryResponse74`
(type bytes `00 02`), `DiscordVoiceClient::Discovery` passes the guard
`response.size() >= 74` and then reads `response[74]`, one byte past the end
of the buffer; no SelectProtocol is defined for it. -/
theorem C7_discovery_reads_past_74_bytes (c : DiscordVoiceClient) :
    discoveryResponse74.length = 74
    ∧ slice discoveryResponse74 0 2 = [0x00, 0x02]
    ∧ DiscordVoiceClient.discoveryParse discoveryResponse74 = .error (.outOfBounds 74 74)
    ∧ c.Discovery discoveryResponse74
        = ([Effect.udpSend (DiscordVoiceClient.discoveryPayload c.m_ssrc)],
            some (.outOfBounds 74 74)) := by
  have h := discoveryParse_exact74 discoveryResponse74 rfl rfl rfl
  refine ⟨rfl, rfl, h, ?_⟩
  unfold DiscordVoiceClient.Discovery
  rw [h]

/-! ### The SSRC map -/

theorem lookup_mapAssign_self (m : List (Nat × Nat)) (k v : Nat) :
    (mapAssign m k v).lookup k = some v := by
  induction m with
  | nil => simp [mapAssign, List.lookup]
  | cons e rest ih =>
    obtain ⟨k1, v1⟩ := e
    by_cases h : k1 = k
    · simp [mapAssign, h, List.lookup]
    · have hb : (k == k1) = false := by simpa using fun e => h e.symm
      simp [mapAssign, h, List.lookup, hb, ih]

theorem lookup_mapAssign_other (m : List (Nat × Nat)) (k v w : Nat) (hw : w ≠ k) :
    (mapAssign m k v).lookup w = m.lookup w := by
  induction m with
  | nil =>
    have hb : (w == k) = false := by simpa using hw
    simp [mapAssign, List.lookup, hb]
  | cons e rest ih =>
    obtain ⟨k1, v1⟩ := e
    by_cases h : k1 = k
    · subst h
      have hb : (w == k1) = false := by simpa using hw
      simp [mapAssign, List.lookup, hb]
    · simp only [mapAssign, h, if_false, List.lookup]
      rw [ih]

theorem keys_mapAssign (m : List (Nat × Nat)) (k v : Nat) :
    ∀ x, x ∈ (mapAssign m k v).map Prod.fst ↔ x = k ∨ x ∈ m.map Prod.fst := by
  induction m with
  | nil => intro x; simp [mapAssign]
  | cons e rest ih =>
    obtain ⟨k1, v1⟩ := e
    intro x
    by_cases h : k1 = k
    · subst h; simp [mapAssign]
    · simp only [mapAssign, h, if_false, List.map_cons, List.mem_cons, ih]
      tauto

theorem nodup_mapAssign (m : List (Nat × Nat)) (k v : Nat)
    (hm : (m.map Prod.fst).Nodup) : ((mapAssign m k v).map Prod.fst).Nodup := by
  induction m with
  | nil => simp [mapAssign]
  | cons e rest ih =>
    obtain ⟨k1, v1⟩ := e
    simp only [List.map_cons, List.nodup_cons] at hm
    by_cases h : k1 = k
    · subst h
      simpa [mapAssign] using hm
    · simp only [mapAssign, h, if_false, List.map_cons, List.nodup_cons]
      refine ⟨?_, ih hm.2⟩
      rw [keys_mapAssign]
      rintro (e | e)
      · exact h e
      · exact hm.1 e

theorem mem_of_nodup_lookup (m : List (Nat × Nat)) (hm : (m.map Prod.fst).Nodup)
    (k v : Nat) (h : (k, v) ∈ m) : m.lookup k = some v := by
  induction m with
  | nil => simp at h
  | cons e rest ih =>
    obtain ⟨k1, v1⟩ := e
    simp only [List.map_cons, List.nodup_cons] at hm
    simp only [List.mem_cons, Prod.mk.injEq] at h
    rcases h with ⟨rfl, rfl⟩ | h
    · simp [List.lookup]
    · have hne : k ≠ k1 := by
        rintro rfl
        exact hm.1 (List.mem_map.mpr ⟨(k, v), h, rfl⟩)
      have hb : (k == k1) = false := by simpa using hne
      simp only [List.lookup, hb]
      exact ih hm.2 h

/-! ### Single steps and runs -/

/-- What a datagram event does to the client: only the static nonce may
change, and at most one `FeedMeOpus` call is made. -/
theorem step_udpData (sd : Sodium) (c : DiscordVoiceClient) (data : List Byte) :
    (∃ n, (c.step sd (.udpData data)).1 = { c with nonce := n })
      ∧ ((c.step sd (.udpData data)).2.1 = []
          ∨ ∃ s p, (c.step sd (.udpData data)).2.1 = [Effect.FeedMeOpus s p]) := by
  have hself : c = { c with nonce := c.nonce } := rfl
  simp only [DiscordVoiceClient.step]
  split
  · by_cases hlen : 12 ≤ (data.take 4096).length
    · have hsz : (data.take 4096).length < 2 ^ 64 := by
        have : (data.take 4096).length ≤ 4096 := List.length_take_le _ _
        omega
      rw [OnUDPData_long sd c _ hlen hsz]
      cases sd.crypto_secretbox_open_easy (List.drop 12 (List.take 4096 data))
          (List.take 12 (List.take 4096 data) ++ List.drop 12 c.nonce) c.m_secret_key with
      | none => exact ⟨⟨_, rfl⟩, Or.inl rfl⟩
      | some m =>
        by_cases h28 : (data.take 4096).length < 28
        · dsimp only
          rw [if_pos h28]
          exact ⟨⟨_, hself⟩, Or.inl rfl⟩
        · dsimp only
          rw [if_neg h28]
          exact ⟨⟨_, rfl⟩, Or.inr ⟨_, _, rfl⟩⟩
    · obtain ⟨f, hf⟩ := OnUDPData_short sd c (data.take 4096) (by omega)
      rw [hf]
      exact ⟨⟨_, hself⟩, Or.inl rfl⟩
  · exact ⟨⟨_, hself⟩, Or.inl rfl⟩

/-- Only Start, Stop and WebSocket close change `m_connected` or emit the
connection signals. -/
theorem step_not_lifecycle (sd : Sodium) (c : DiscordVoiceClient) (e : Event)
    (he : e.isLifecycle = false) :
    (c.step sd e).1.m_connected = c.m_connected
      ∧ Effect.signal_connected ∉ (c.step sd e).2.1
      ∧ Effect.signal_disconnected ∉ (c.step sd e).2.1 := by
  cases e with
  | Start => simp [Event.isLifecycle] at he
  | Stop => simp [Event.isLifecycle] at he
  | wsClose code => simp [Event.isLifecycle] at he
  | wsMessage msg response =>
    cases msg with
    | Hello hb => simp [DiscordVoiceClient.step, DiscordVoiceClient.OnGatewayMessage,
        DiscordVoiceClient.HandleGatewayHello, DiscordVoiceClient.Identify]
    | Ready ip port ssrc modes =>
      obtain ⟨rest, hr, hrest⟩ := Discovery_effects
        { c with m_ip := ip, m_port := port % 2 ^ 16, m_ssrc := ssrc % 2 ^ 32,
                 m_udp := c.m_udp.Connect ip (port % 2 ^ 16) } response
      simp only [DiscordVoiceClient.step, DiscordVoiceClient.OnGatewayMessage,
        DiscordVoiceClient.HandleGatewayReady]
      rw [hr]
      rcases hrest with h | ⟨a, p, h⟩ <;> simp [h, DiscordVoiceClient.SelectProtocol]
    | SessionDescription mode key =>
      simp [DiscordVoiceClient.step, DiscordVoiceClient.OnGatewayMessage,
        DiscordVoiceClient.HandleGatewaySessionDescription]
    | Speaking u s f =>
      simp [DiscordVoiceClient.step, DiscordVoiceClient.OnGatewayMessage,
        DiscordVoiceClient.HandleGatewaySpeaking]
    | Other op => simp [DiscordVoiceClient.step, DiscordVoiceClient.OnGatewayMessage]
  | opusPacket payload =>
    by_cases hc : c.m_connected = true
    · simp [DiscordVoiceClient.step, DiscordVoiceClient.OnOpusPacket, hc]
    · simp [DiscordVoiceClient.step, DiscordVoiceClient.OnOpusPacket, hc]
  | udpData data =>
    obtain ⟨⟨n, hn⟩, hl⟩ := step_udpData sd c data
    rw [hn]
    rcases hl with h | ⟨s, p, h⟩ <;> simp [h]
  | keepalive =>
    by_cases hc : c.m_connected = true
    · simp [DiscordVoiceClient.step, DiscordVoiceClient.IsConnected, hc]
    · simp [DiscordVoiceClient.step, DiscordVoiceClient.IsConnected, hc]
  | heartbeat ms => simp [DiscordVoiceClient.step]

theorem step_signals (sd : Sodium) (c : DiscordVoiceClient) (e : Event) :
    List.count Effect.signal_disconnected (c.step sd e).2.1
        = (if c.m_connected = true ∧ (c.step sd e).1.m_connected = false then 1 else 0)
      ∧ (if c.m_connected = false ∧ (c.step sd e).1.m_connected = true then 1 else 0)
          ≤ List.count Effect.signal_connected (c.step sd e).2.1 := by
  cases hl : e.isLifecycle with
  | false =>
    obtain ⟨h1, h2, h3⟩ := step_not_lifecycle sd c e hl
    rw [List.count_eq_zero_of_not_mem h3, h1]
    cases c.m_connected <;> simp
  | true =>
    cases e with
    | Start => cases hc : c.m_connected <;> simp [DiscordVoiceClient.step, DiscordVoiceClient.Start, hc]
    | Stop => cases hc : c.m_connected <;> simp [DiscordVoiceClient.step, DiscordVoiceClient.Stop, hc]
    | wsClose code =>
      cases hc : c.m_connected <;> simp [DiscordVoiceClient.step, DiscordVoiceClient.Stop, hc]
    | wsMessage msg response => simp [Event.isLifecycle] at hl
    | opusPacket payload => simp [Event.isLifecycle] at hl
    | udpData data => simp [Event.isLifecycle] at hl
    | keepalive => simp [Event.isLifecycle] at hl
    | heartbeat ms => simp [Event.isLifecycle] at hl

theorem connectedTrace_head (sd : Sodium) (c : DiscordVoiceClient) (evs : List Event) :
    ∃ t, DiscordVoiceClient.connectedTrace sd c evs = c.m_connected :: t := by
  cases evs with
  | nil => exact ⟨[], rfl⟩
  | cons e es =>
    rcases hstep : c.step sd e with ⟨c1, l1, f⟩
    cases f with
    | none =>
      exact ⟨DiscordVoiceClient.connectedTrace sd c1 es,
        by simp [DiscordVoiceClient.connectedTrace, hstep]⟩
    | some f => exact ⟨[c1.m_connected], by simp [DiscordVoiceClient.connectedTrace, hstep]⟩

/-- Emissions and flips along a run. -/
theorem run_signals (sd : Sodium) (evs : List Event) :
    ∀ c : DiscordVoiceClient,
      List.count Effect.signal_disconnected (DiscordVoiceClient.run sd c evs).2.1
          = fallingEdges (DiscordVoiceClient.connectedTrace sd c evs)
      ∧ risingEdges (DiscordVoiceClient.connectedTrace sd c evs)
          ≤ List.count Effect.signal_connected (DiscordVoiceClient.run sd c evs).2.1
      ∧ fallingEdges (DiscordVoiceClient.connectedTrace sd c evs)
            + (if (DiscordVoiceClient.run sd c evs).1.m_connected = true then 1 else 0)
          = risingEdges (DiscordVoiceClient.connectedTrace sd c evs)
            + (if c.m_connected = true then 1 else 0) := by
  induction evs with
  | nil =>
    intro c
    simp [DiscordVoiceClient.run, DiscordVoiceClient.connectedTrace, fallingEdges, risingEdges]
  | cons e es ih =>
    intro c
    obtain ⟨s1, s2⟩ := step_signals sd c e
    rcases hstep : c.step sd e with ⟨c1, l1, f⟩
    rw [hstep] at s1 s2
    simp only at s1 s2
    cases f with
    | some f =>
      simp only [DiscordVoiceClient.run, DiscordVoiceClient.connectedTrace, hstep,
        fallingEdges, risingEdges, Nat.add_zero]
      refine ⟨s1, s2, ?_⟩
      cases c.m_connected <;> cases c1.m_connected <;> simp
    | none =>
      obtain ⟨i1, i2, i3⟩ := ih c1
      obtain ⟨t, ht⟩ := connectedTrace_head sd c1 es
      simp only [DiscordVoiceClient.run, DiscordVoiceClient.connectedTrace, hstep,
        List.count_append]
      rw [ht] at i1 i2 i3 ⊢
      simp only [fallingEdges, risingEdges]
      rw [i1, s1]
      refine ⟨rfl, by omega, ?_⟩
      revert i3
      cases c.m_connected <;> cases c1.m_connected <;> simp <;> omega

theorem run_lifecycle_no_fault (sd : Sodium) (evs : List Event) :
    ∀ c : DiscordVoiceClient, (∀ e ∈ evs, e.isLifecycle = true) →
      (DiscordVoiceClient.run sd c evs).2.2 = none := by
  induction evs with
  | nil => intro c _; rfl
  | cons e es ih =>
    intro c h
    have he := h e (List.mem_cons_self _ _)
    have hes : ∀ x ∈ es, x.isLifecycle = true := fun x hx => h x (List.mem_cons_of_mem _ hx)
    cases e with
    | Start => simpa [DiscordVoiceClient.run, DiscordVoiceClient.step] using ih _ hes
    | Stop => simpa [DiscordVoiceClient.run, DiscordVoiceClient.step] using ih _ hes
    | wsClose code => simpa [DiscordVoiceClient.run, DiscordVoiceClient.step] using ih _ hes
    | wsMessage msg response => simp [Event.isLifecycle] at he
    | opusPacket payload => simp [Event.isLifecycle] at he
    | udpData data => simp [Event.isLifecycle] at he
    | keepalive => simp [Event.isLifecycle] at he
    | heartbeat ms => simp [Event.isLifecycle] at he

/-- C6: from a client with `m_connected = false`, along every run the number of
`signal_disconnected` emissions is at most the number of `signal_connected`
emissions, `m_connected` falls at most as often as it rises, and every
emission of `signal_disconnected` is one fall of the flag. A run of Start,
Stop and WebSocket-close events handles every event. Each Stop (and each
WebSocket close, which calls Stop) emits `signal_disconnected` once if
`m_connected` was true and not at all otherwise, and leaves the flag false; a
second Stop emits nothing, so two consecutive Stop calls on a connected client
emit exactly one `signal_disconnected`. -/
theorem C6_connect_disconnect_edges (sd : Sodium) (c0 : DiscordVoiceClient)
    (h0 : c0.m_connected = false) (evs : List Event) :
    List.count Effect.signal_disconnected (DiscordVoiceClient.run sd c0 evs).2.1
        ≤ List.count Effect.signal_connected (DiscordVoiceClient.run sd c0 evs).2.1
      ∧ fallingEdges (DiscordVoiceClient.connectedTrace sd c0 evs)
          ≤ risingEdges (DiscordVoiceClient.connectedTrace sd c0 evs)
      ∧ List.count Effect.signal_disconnected (DiscordVoiceClient.run sd c0 evs).2.1
          = fallingEdges (DiscordVoiceClient.connectedTrace sd c0 evs)
      ∧ ((∀ e ∈ evs, e.isLifecycle = true) → (DiscordVoiceClient.run sd c0 evs).2.2 = none)
      ∧ (∀ c : DiscordVoiceClient,
          List.count Effect.signal_disconnected c.Stop.2 = (if c.m_connected = true then 1 else 0)
          ∧ c.Stop.1.m_connected = false
          ∧ c.step sd .Stop = (c.Stop.1, c.Stop.2, none)
          ∧ (∀ code, c.step sd (.wsClose code) = (c.Stop.1, c.Stop.2, none))
          ∧ List.count Effect.signal_disconnected c.Stop.1.Stop.2 = 0
          ∧ (c.m_connected = true →
              List.count Effect.signal_disconnected
                (DiscordVoiceClient.run sd c [.Stop, .Stop]).2.1 = 1)) := by
  obtain ⟨r1, r2, r3⟩ := run_signals sd evs c0
  rw [h0] at r3
  have hfr : fallingEdges (DiscordVoiceClient.connectedTrace sd c0 evs)
      ≤ risingEdges (DiscordVoiceClient.connectedTrace sd c0 evs) := by
    simp only [Bool.false_eq_true, if_false, Nat.add_zero] at r3
    omega
  refine ⟨by omega, hfr, r1, run_lifecycle_no_fault sd evs c0, ?_⟩
  intro c
  refine ⟨?_, ?_, rfl, fun _ => rfl, ?_, ?_⟩
  · cases hc : c.m_connected <;> simp [DiscordVoiceClient.Stop, hc]
  · cases hc : c.m_connected <;> simp [DiscordVoiceClient.Stop, hc]
  · cases hc : c.m_connected <;> simp [DiscordVoiceClient.Stop, hc]
  · intro hc
    simp [DiscordVoiceClient.run, DiscordVoiceClient.step, DiscordVoiceClient.Stop, hc]

/-- C6 at a concrete input: Start, Stop, Stop, close, Start, Stop. -/
theorem C6_connect_disconnect_edges_witness :
    exampleClient.m_connected = false
      ∧ List.count Effect.signal_disconnected
          (DiscordVoiceClient.run testSodium exampleClient
            [.Start, .Stop, .Stop, .wsClose 1000, .Start, .Stop]).2.1
        ≤ List.count Effect.signal_connected
          (DiscordVoiceClient.run testSodium exampleClient
            [.Start, .Stop, .Stop, .wsClose 1000, .Start, .Stop]).2.1
      ∧ List.count Effect.signal_disconnected
          (DiscordVoiceClient.run testSodium exampleClient
            [.Start, .Stop, .Stop, .wsClose 1000, .Start, .Stop]).2.1 = 2 :=
  ⟨rfl,
    (C6_connect_disconnect_edges testSodium exampleClient rfl
      [.Start, .Stop, .Stop, .wsClose 1000, .Start, .Stop]).1,
    by decide⟩

/-! ### Speaking events -/

/-- How one event changes the SSRC map: a Speaking message assigns one entry,
every other event leaves the map alone. -/
theorem step_ssrc_map (sd : Sodium) (c : DiscordVoiceClient) (e : Event) :
    (c.step sd e).1.m_ssrc_map
      = match e with
        | .wsMessage (.Speaking u s _) _ => mapAssign c.m_ssrc_map u s
        | _ => c.m_ssrc_map := by
  cases e with
  | Start => rfl
  | Stop => cases hc : c.m_connected <;> simp [DiscordVoiceClient.step, DiscordVoiceClient.Stop, hc]
  | wsClose code =>
    cases hc : c.m_connected <;> simp [DiscordVoiceClient.step, DiscordVoiceClient.Stop, hc]
  | wsMessage msg response =>
    cases msg with
    | Hello hb => rfl
    | Ready ip port ssrc modes => rfl
    | SessionDescription mode key => rfl
    | Speaking u s f => rfl
    | Other op => rfl
  | opusPacket payload =>
    cases hc : c.m_connected <;>
      simp [DiscordVoiceClient.step, DiscordVoiceClient.OnOpusPacket, hc]
  | udpData data =>
    obtain ⟨⟨n, hn⟩, _⟩ := step_udpData sd c data
    rw [hn]
  | keepalive =>
    cases hc : c.m_connected <;>
      simp [DiscordVoiceClient.step, DiscordVoiceClient.IsConnected, hc]
  | heartbeat ms => rfl

/-- An invariant of single steps holds along every run. -/
theorem run_invariant (sd : Sodium) (P : DiscordVoiceClient → List Effect → Prop)
    (hstep : ∀ c log e, P c log → P (c.step sd e).1 (log ++ (c.step sd e).2.1))
    (evs : List Event) :
    ∀ c log, P c log →
      P (DiscordVoiceClient.run sd c evs).1 (log ++ (DiscordVoiceClient.run sd c evs).2.1) := by
  induction evs with
  | nil => intro c log h; simpa [DiscordVoiceClient.run] using h
  | cons e es ih =>
    intro c log h
    have hs := hstep c log e h
    rcases hst : c.step sd e with ⟨c1, l1, f⟩
    rw [hst] at hs
    cases f with
    | some f => simpa [DiscordVoiceClient.run, hst] using hs
    | none =>
      have := ih c1 (log ++ l1) hs
      simpa [DiscordVoiceClient.run, hst, List.append_assoc] using this

theorem run_keys_nodup (sd : Sodium) (c0 : DiscordVoiceClient)
    (h0 : (c0.m_ssrc_map.map Prod.fst).Nodup) (evs : List Event) :
    ((DiscordVoiceClient.run sd c0 evs).1.m_ssrc_map.map Prod.fst).Nodup := by
  have := run_invariant sd (fun c _ => (c.m_ssrc_map.map Prod.fst).Nodup)
    (by
      intro c log e h
      show ((c.step sd e).1.m_ssrc_map.map Prod.fst).Nodup
      rw [step_ssrc_map]
      split
      · exact nodup_mapAssign _ _ _ h
      · exact h) evs c0 [] h0
  exact this

theorem run_lookup_none (sd : Sodium) (v : Nat) (evs : List Event) :
    ∀ c : DiscordVoiceClient, c.GetSSRCOfUser v = none →
      (∀ s f response, Event.wsMessage (.Speaking v s f) response ∉ evs) →
      (DiscordVoiceClient.run sd c evs).1.GetSSRCOfUser v = none := by
  induction evs with
  | nil => intro c h _; simpa [DiscordVoiceClient.run] using h
  | cons e es ih =>
    intro c h hv
    have hes : ∀ s f response, Event.wsMessage (.Speaking v s f) response ∉ es :=
      fun s f r hm => hv s f r (List.mem_cons_of_mem _ hm)
    have h1 : (c.step sd e).1.GetSSRCOfUser v = none := by
      unfold DiscordVoiceClient.GetSSRCOfUser
      rw [step_ssrc_map]
      split
      · rename_i u s f response
        have hne : v ≠ u := by
          rintro rfl
          exact hv s f response (List.mem_cons_self _ _)
        rw [lookup_mapAssign_other _ _ _ _ hne]
        exact h
      · exact h
    rcases hst : c.step sd e with ⟨c1, l1, f⟩
    rw [hst] at h1
    cases f with
    | some f => simpa [DiscordVoiceClient.run, hst] using h1
    | none => simpa [DiscordVoiceClient.run, hst] using ih c1 h1 hes

/-- C10: after `HandleGatewaySpeaking` for user `u`, SSRC `s` and flags `f`,
`GetSSRCOfUser u` is `s` (whatever it was before), `GetSSRCOfUser v` is
unchanged for every other user `v`, and `signal_speaking (u, s, f)` is emitted
exactly once and is the only effect. From a fresh client, a user for whom no
Speaking event was handled has no SSRC, and Speaking (111, 7, 1) gives
`GetSSRCOfUser 111 = 7`. -/
theorem C10_speaking_updates_map (sd : Sodium) (c : DiscordVoiceClient) (u s f : Nat)
    (response : List Byte) :
    (c.HandleGatewaySpeaking u s f).1.GetSSRCOfUser u = some s
      ∧ (∀ v, v ≠ u → (c.HandleGatewaySpeaking u s f).1.GetSSRCOfUser v = c.GetSSRCOfUser v)
      ∧ (c.HandleGatewaySpeaking u s f).2 = [Effect.signal_speaking u s f]
      ∧ List.count (Effect.signal_speaking u s f) (c.HandleGatewaySpeaking u s f).2 = 1
      ∧ c.step sd (.wsMessage (.Speaking u s f) response)
          = ((c.HandleGatewaySpeaking u s f).1, (c.HandleGatewaySpeaking u s f).2, none)
      ∧ (∀ (ssrc0 : Nat) (key0 : List Byte) (evs : List Event) (v : Nat),
          (∀ s1 f1 r1, Event.wsMessage (.Speaking v s1 f1) r1 ∉ evs) →
          (DiscordVoiceClient.run sd (DiscordVoiceClient.init ssrc0 key0) evs).1.GetSSRCOfUser v
            = none)
      ∧ (∀ (ssrc0 : Nat) (key0 : List Byte),
          (DiscordVoiceClient.run sd (DiscordVoiceClient.init ssrc0 key0)
            [.wsMessage (.Speaking 111 7 1) response]).1.GetSSRCOfUser 111 = some 7) := by
  refine ⟨lookup_mapAssign_self _ _ _, fun v hv => lookup_mapAssign_other _ _ _ _ hv, rfl,
    by simp [DiscordVoiceClient.HandleGatewaySpeaking], rfl, ?_, ?_⟩
  · intro ssrc0 key0 evs v hv
    exact run_lookup_none sd v evs _ rfl hv
  · intro ssrc0 key0
    rfl

/-- C10 at a concrete input: user 111 is overwritten from 5 to 7 while user
222 keeps its SSRC 9 and the unseen user 333 has none. -/
theorem C10_speaking_updates_map_witness :
    (((exampleClient.HandleGatewaySpeaking 111 5 1).1.HandleGatewaySpeaking 222 9 1).1.HandleGatewaySpeaking
        111 7 1).1.GetSSRCOfUser 111 = some 7
      ∧ (222 ≠ 111 →
          (((exampleClient.HandleGatewaySpeaking 111 5 1).1.HandleGatewaySpeaking 222 9 1).1.HandleGatewaySpeaking
            111 7 1).1.GetSSRCOfUser 222
          = ((exampleClient.HandleGatewaySpeaking 111 5 1).1.HandleGatewaySpeaking
              222 9 1).1.GetSSRCOfUser 222)
      ∧ ((exampleClient.HandleGatewaySpeaking 111 5 1).1.HandleGatewaySpeaking
            222 9 1).1.GetSSRCOfUser 222 = some 9
      ∧ (DiscordVoiceClient.run testSodium (DiscordVoiceClient.init 42 zeroKey)
          [.wsMessage (.Speaking 111 7 1) [], .Start]).1.GetSSRCOfUser 333 = none :=
  ⟨(C10_speaking_updates_map testSodium
      ((exampleClient.HandleGatewaySpeaking 111 5 1).1.HandleGatewaySpeaking 222 9 1).1
      111 7 1 []).1,
    (C10_speaking_updates_map testSodium
      ((exampleClient.HandleGatewaySpeaking 111 5 1).1.HandleGatewaySpeaking 222 9 1).1
      111 7 1 []).2.1 222,
    rfl,
    (C10_speaking_updates_map testSodium exampleClient 111 7 1 []).2.2.2.2.2.1 42 zeroKey
      [.wsMessage (.Speaking 111 7 1) [], .Start] 333 (by
        intro s1 f1 r1 h
        simp at h)⟩

theorem ssrcUnique_of_map_eq (c c1 : DiscordVoiceClient)
    (h : c1.m_ssrc_map = c.m_ssrc_map) (hu : c.SSRCUnique) : c1.SSRCUnique := by
  intro u1 u2 s hne
  have := hu u1 u2 s hne
  simpa only [DiscordVoiceClient.GetSSRCOfUser, h] using this

/-- A Speaking event that assigns an SSRC held by no other user keeps the SSRCs
of distinct users distinct and makes its user the only holder of that SSRC. -/
theorem speaking_fresh_unique (c : DiscordVoiceClient) (u s f : Nat) (hu : c.SSRCUnique)
    (hf : ∀ v, v ≠ u → c.GetSSRCOfUser v ≠ some s) :
    (c.HandleGatewaySpeaking u s f).1.SSRCUnique
      ∧ ∀ v, (c.HandleGatewaySpeaking u s f).1.GetSSRCOfUser v = some s → v = u := by
  have hself : (c.HandleGatewaySpeaking u s f).1.GetSSRCOfUser u = some s :=
    lookup_mapAssign_self _ _ _
  have hother : ∀ v, v ≠ u →
      (c.HandleGatewaySpeaking u s f).1.GetSSRCOfUser v = c.GetSSRCOfUser v :=
    fun v hv => lookup_mapAssign_other _ _ _ _ hv
  have honly : ∀ v, (c.HandleGatewaySpeaking u s f).1.GetSSRCOfUser v = some s → v = u := by
    intro v hv
    by_contra hne
    rw [hother v hne] at hv
    exact hf v hne hv
  refine ⟨?_, honly⟩
  intro u1 u2 t hne ⟨h1, h2⟩
  by_cases e1 : u1 = u
  · subst e1
    rw [hself] at h1
    have ht : s = t := Option.some.inj h1
    subst ht
    exact hne (honly u2 h2).symm
  · by_cases e2 : u2 = u
    · subst e2
      rw [hself] at h2
      have ht : s = t := Option.some.inj h2
      subst ht
      exact e1 (honly u1 h1)
    · rw [hother u1 e1] at h1
      rw [hother u2 e2] at h2
      exact hu u1 u2 t hne ⟨h1, h2⟩

theorem step_ssrc_unique (sd : Sodium) (c : DiscordVoiceClient) (e : Event) (es : List Event)
    (hu : c.SSRCUnique) (hfresh : DiscordVoiceClient.SpeakingFresh sd c (e :: es)) :
    (c.step sd e).1.SSRCUnique := by
  have hkeep : ∀ c1 : DiscordVoiceClient, c1.m_ssrc_map = c.m_ssrc_map → c1.SSRCUnique :=
    fun c1 h => ssrcUnique_of_map_eq c c1 h hu
  cases e with
  | Start => exact hkeep _ (step_ssrc_map sd c _)
  | Stop => exact hkeep _ (step_ssrc_map sd c _)
  | wsClose code => exact hkeep _ (step_ssrc_map sd c _)
  | wsMessage msg response =>
    cases msg with
    | Hello hb => exact hkeep _ (step_ssrc_map sd c _)
    | Ready ip port ssrc modes => exact hkeep _ (step_ssrc_map sd c _)
    | SessionDescription mode key => exact hkeep _ (step_ssrc_map sd c _)
    | Speaking u s f => exact (speaking_fresh_unique c u s f hu hfresh.1).1
    | Other op => exact hkeep _ (step_ssrc_map sd c _)
  | opusPacket payload => exact hkeep _ (step_ssrc_map sd c _)
  | udpData data => exact hkeep _ (step_ssrc_map sd c _)
  | keepalive => exact hkeep _ (step_ssrc_map sd c _)
  | heartbeat ms => exact hkeep _ (step_ssrc_map sd c _)

theorem run_ssrc_unique (sd : Sodium) (evs : List Event) :
    ∀ c : DiscordVoiceClient, c.SSRCUnique → DiscordVoiceClient.SpeakingFresh sd c evs →
      (DiscordVoiceClient.run sd c evs).1.SSRCUnique := by
  induction evs with
  | nil => intro c hu _; exact hu
  | cons e es ih =>
    intro c hu hfresh
    have h1 := step_ssrc_unique sd c e es hu hfresh
    have h2 : DiscordVoiceClient.SpeakingFresh sd (c.step sd e).1 es := hfresh.2
    rcases hst : c.step sd e with ⟨c1, l1, f⟩
    rw [hst] at h1 h2
    cases f with
    | some f => simpa [DiscordVoiceClient.run, hst] using h1
    | none => simpa [DiscordVoiceClient.run, hst] using ih c1 h1 h2

/-- C9 (amended): the SSRC map holds at most one user per SSRC as long as every
Speaking event assigns an SSRC that no other user holds at that moment. From a
state in which no two distinct users share an SSRC, in every state reached by
handling events whose Speaking events have that property, no two distinct user
ids `u1 != u2` have `GetSSRCOfUser u1 = GetSSRCOfUser u2 = s`; and after one
more such Speaking event assigning SSRC `s` to user `u`, `u` is mapped to `s`
and is the only user mapped to `s`. -/
theorem C9_unique_user_per_fresh_ssrc (sd : Sodium) (c0 : DiscordVoiceClient)
    (h0 : c0.SSRCUnique) (evs : List Event)
    (hfresh : DiscordVoiceClient.SpeakingFresh sd c0 evs) :
    (∀ u1 u2 s, u1 ≠ u2 →
        ¬ ((DiscordVoiceClient.run sd c0 evs).1.GetSSRCOfUser u1 = some s
            ∧ (DiscordVoiceClient.run sd c0 evs).1.GetSSRCOfUser u2 = some s))
      ∧ (∀ u s f,
          (∀ v, v ≠ u → (DiscordVoiceClient.run sd c0 evs).1.GetSSRCOfUser v ≠ some s) →
          ((DiscordVoiceClient.run sd c0 evs).1.HandleGatewaySpeaking u s f).1.GetSSRCOfUser u
              = some s
            ∧ (∀ v, ((DiscordVoiceClient.run sd c0 evs).1.HandleGatewaySpeaking
                  u s f).1.GetSSRCOfUser v = some s → v = u)
            ∧ (∀ u1 u2 t, u1 ≠ u2 →
                ¬ (((DiscordVoiceClient.run sd c0 evs).1.HandleGatewaySpeaking
                      u s f).1.GetSSRCOfUser u1 = some t
                    ∧ ((DiscordVoiceClient.run sd c0 evs).1.HandleGatewaySpeaking
                      u s f).1.GetSSRCOfUser u2 = some t))) := by
  have hrun := run_ssrc_unique sd evs c0 h0 hfresh
  refine ⟨hrun, ?_⟩
  intro u s f hf
  obtain ⟨h1, h2⟩ := speaking_fresh_unique _ u s f hrun hf
  exact ⟨lookup_mapAssign_self _ _ _, h2, h1⟩

theorem exampleClient_ssrcUnique : exampleClient.SSRCUnique := by
  intro u1 u2 s _ h
  simp [DiscordVoiceClient.GetSSRCOfUser, exampleClient, DiscordVoiceClient.init] at h

theorem example_speakingFresh :
    DiscordVoiceClient.SpeakingFresh testSodium exampleClient
      [.wsMessage (.Speaking 111 5 1) [], .wsMessage (.Speaking 222 9 1) [],
       .wsMessage (.Speaking 111 7 1) []] := by
  refine ⟨?_, ?_, ?_, trivial⟩
  · intro v _
    simp [DiscordVoiceClient.GetSSRCOfUser, exampleClient, DiscordVoiceClient.init]
  · intro v hv
    simp [DiscordVoiceClient.GetSSRCOfUser, exampleClient, DiscordVoiceClient.init,
      DiscordVoiceClient.step, DiscordVoiceClient.OnGatewayMessage,
      DiscordVoiceClient.HandleGatewaySpeaking, mapAssign, List.lookup]
    split <;> simp
  · intro v hv
    have hb : (v == 111) = false := by simpa using hv
    simp [DiscordVoiceClient.GetSSRCOfUser, exampleClient, DiscordVoiceClient.init,
      DiscordVoiceClient.step, DiscordVoiceClient.OnGatewayMessage,
      DiscordVoiceClient.HandleGatewaySpeaking, mapAssign, List.lookup, hb]
    split <;> simp

/-- C9 at a concrete input: users 111 and 222 get the SSRCs 5 and 9, then user
111 moves to the unused SSRC 7. -/
theorem C9_unique_user_per_fresh_ssrc_witness :
    exampleClient.SSRCUnique
      ∧ DiscordVoiceClient.SpeakingFresh testSodium exampleClient
          [.wsMessage (.Speaking 111 5 1) [], .wsMessage (.Speaking 222 9 1) [],
           .wsMessage (.Speaking 111 7 1) []]
      ∧ (∀ u1 u2 s, u1 ≠ u2 →
          ¬ ((DiscordVoiceClient.run testSodium exampleClient
                [.wsMessage (.Speaking 111 5 1) [], .wsMessage (.Speaking 222 9 1) [],
                 .wsMessage (.Speaking 111 7 1) []]).1.GetSSRCOfUser u1 = some s
              ∧ (DiscordVoiceClient.run testSodium exampleClient
                [.wsMessage (.Speaking 111 5 1) [], .wsMessage (.Speaking 222 9 1) [],
                 .wsMessage (.Speaking 111 7 1) []]).1.GetSSRCOfUser u2 = some s))
      ∧ (DiscordVoiceClient.run testSodium exampleClient
          [.wsMessage (.Speaking 111 5 1) [], .wsMessage (.Speaking 222 9 1) [],
           .wsMessage (.Speaking 111 7 1) []]).1.m_ssrc_map = [(111, 7), (222, 9)] :=
  ⟨exampleClient_ssrcUnique, example_speakingFresh,
    (C9_unique_user_per_fresh_ssrc testSodium exampleClient exampleClient_ssrcUnique
      [.wsMessage (.Speaking 111 5 1) [], .wsMessage (.Speaking 222 9 1) [],
       .wsMessage (.Speaking 111 7 1) []] example_speakingFresh).1,
    rfl⟩

/-- C9 (counterexample): after Speaking (111, 7) and Speaking (222, 7) the two
distinct users 111 and 222 are both mapped to SSRC 7. -/
theorem C9_two_users_share_ssrc :
    (DiscordVoiceClient.run testSodium (DiscordVoiceClient.init 0 [])
        [.wsMessage (.Speaking 111 7 1) [], .wsMessage (.Speaking 222 7 1) []]).1.GetSSRCOfUser 111
      = some 7
    ∧ (DiscordVoiceClient.run testSodium (DiscordVoiceClient.init 0 [])
        [.wsMessage (.Speaking 111 7 1) [], .wsMessage (.Speaking 222 7 1) []]).1.GetSSRCOfUser 222
      = some 7
    ∧ (111 : Nat) ≠ 222 := by
  refine ⟨rfl, rfl, by decide⟩

/-! ### UDP calls along a run -/

/-- The UDP calls that one event can make. -/
theorem step_udp_calls (sd : Sodium) (c : DiscordVoiceClient) (e : Event) :
    (∀ b, Effect.udpSend b ∈ (c.step sd e).2.1 →
        b = KEEPALIVE ∨ ∃ ssrc, b = DiscordVoiceClient.discoveryPayload ssrc)
      ∧ ((∀ p d, Effect.udpSendEncrypted p d ∉ (c.step sd e).2.1)
          ∨ (c.m_connected = true
              ∧ ∃ p d, e = Event.opusPacket p ∧ (c.step sd e).2.1 = [Effect.udpSendEncrypted p d])
          ∨ (∃ w s k rest, (c.step sd e).2.1
              = Effect.wsSend w :: Effect.udpSetSSRC s :: Effect.udpSetSecretKey k :: rest)) := by
  cases e with
  | Start => simp [DiscordVoiceClient.step, DiscordVoiceClient.Start]
  | Stop => cases hc : c.m_connected <;> simp [DiscordVoiceClient.step, DiscordVoiceClient.Stop, hc]
  | wsClose code =>
    cases hc : c.m_connected <;> simp [DiscordVoiceClient.step, DiscordVoiceClient.Stop, hc]
  | wsMessage msg response =>
    cases msg with
    | Hello hb => simp [DiscordVoiceClient.step, DiscordVoiceClient.OnGatewayMessage,
        DiscordVoiceClient.HandleGatewayHello, DiscordVoiceClient.Identify]
    | Ready ip port ssrc modes =>
      obtain ⟨rest, hr, hrest⟩ := Discovery_effects
        { c with m_ip := ip, m_port := port % 2 ^ 16, m_ssrc := ssrc % 2 ^ 32,
                 m_udp := c.m_udp.Connect ip (port % 2 ^ 16) } response
      simp only [DiscordVoiceClient.step, DiscordVoiceClient.OnGatewayMessage,
        DiscordVoiceClient.HandleGatewayReady]
      rw [hr]
      rcases hrest with h | ⟨a, p, h⟩
      · subst h
        refine ⟨?_, Or.inl (by simp)⟩
        intro b hb
        simp at hb
        exact Or.inr ⟨_, hb⟩
      · subst h
        refine ⟨?_, Or.inl (by simp [DiscordVoiceClient.SelectProtocol])⟩
        intro b hb
        simp [DiscordVoiceClient.SelectProtocol] at hb
        exact Or.inr ⟨_, hb⟩
    | SessionDescription mode key =>
      refine ⟨?_, Or.inr (Or.inr ⟨_, _, _, _, rfl⟩)⟩
      simp [DiscordVoiceClient.step, DiscordVoiceClient.OnGatewayMessage,
        DiscordVoiceClient.HandleGatewaySessionDescription]
    | Speaking u s f =>
      simp [DiscordVoiceClient.step, DiscordVoiceClient.OnGatewayMessage,
        DiscordVoiceClient.HandleGatewaySpeaking]
    | Other op => simp [DiscordVoiceClient.step, DiscordVoiceClient.OnGatewayMessage]
  | opusPacket payload =>
    by_cases hc : c.m_connected = true
    · refine ⟨?_, Or.inr (Or.inl ⟨hc, payload, (c.m_udp.SendEncrypted sd payload).2, rfl, ?_⟩)⟩
      · simp [DiscordVoiceClient.step, DiscordVoiceClient.OnOpusPacket, hc]
      · simp only [DiscordVoiceClient.step, DiscordVoiceClient.OnOpusPacket, hc, if_true]
    · simp [DiscordVoiceClient.step, DiscordVoiceClient.OnOpusPacket, hc]
  | udpData data =>
    obtain ⟨_, hl⟩ := step_udpData sd c data
    rcases hl with h | ⟨s, p, h⟩ <;> simp [h]
  | keepalive =>
    by_cases hc : c.m_connected = true
    · simp [DiscordVoiceClient.step, DiscordVoiceClient.IsConnected, hc]
    · simp [DiscordVoiceClient.step, DiscordVoiceClient.IsConnected, hc]
  | heartbeat ms => simp [DiscordVoiceClient.step]

theorem connectedAfter_append (a b : List Effect) :
    connectedAfter (a ++ b)
      = b.foldl (fun f e =>
          if e = Effect.signal_connected then true
          else if e = Effect.signal_disconnected then false else f) (connectedAfter a) := by
  simp [connectedAfter, List.foldl_append]

theorem foldl_flag_of_not_mem (l : List Effect) (b : Bool)
    (h1 : Effect.signal_connected ∉ l) (h2 : Effect.signal_disconnected ∉ l) :
    l.foldl (fun f e =>
        if e = Effect.signal_connected then true
        else if e = Effect.signal_disconnected then false else f) b = b := by
  induction l generalizing b with
  | nil => rfl
  | cons x xs ih =>
    simp only [List.mem_cons, not_or] at h1 h2
    have e1 : x ≠ Effect.signal_connected := fun h => h1.1 h.symm
    have e2 : x ≠ Effect.signal_disconnected := fun h => h2.1 h.symm
    simp only [List.foldl, e1, e2, if_false]
    exact ih b h1.2 h2.2

/-- The flag implied by the log follows `m_connected` through every step. -/
theorem step_connectedAfter (sd : Sodium) (c : DiscordVoiceClient) (log : List Effect)
    (e : Event) (h : c.m_connected = connectedAfter log) :
    (c.step sd e).1.m_connected = connectedAfter (log ++ (c.step sd e).2.1) := by
  rw [connectedAfter_append, ← h]
  cases hl : e.isLifecycle with
  | false =>
    obtain ⟨h1, h2, h3⟩ := step_not_lifecycle sd c e hl
    rw [foldl_flag_of_not_mem _ _ h2 h3, h1]
  | true =>
    cases e with
    | Start => simp [DiscordVoiceClient.step, DiscordVoiceClient.Start]
    | Stop => cases hc : c.m_connected <;> simp [DiscordVoiceClient.step, DiscordVoiceClient.Stop, hc]
    | wsClose code =>
      cases hc : c.m_connected <;> simp [DiscordVoiceClient.step, DiscordVoiceClient.Stop, hc]
    | wsMessage msg response => simp [Event.isLifecycle] at hl
    | opusPacket payload => simp [Event.isLifecycle] at hl
    | udpData data => simp [Event.isLifecycle] at hl
    | keepalive => simp [Event.isLifecycle] at hl
    | heartbeat ms => simp [Event.isLifecycle] at hl

theorem map_snd_tag (e : Event) (l : List Effect) :
    (l.map (fun x => (e, x))).map Prod.snd = l := by
  induction l with
  | nil => rfl
  | cons x xs ih => simp only [List.map_cons, ih]

theorem runTagged_map_snd (sd : Sodium) (evs : List Event) :
    ∀ c : DiscordVoiceClient,
      (DiscordVoiceClient.runTagged sd c evs).map Prod.snd
        = (DiscordVoiceClient.run sd c evs).2.1 := by
  induction evs with
  | nil => intro c; rfl
  | cons e es ih =>
    intro c
    rcases hst : c.step sd e with ⟨c1, l1, f⟩
    cases f with
    | some f =>
      simp only [DiscordVoiceClient.runTagged, DiscordVoiceClient.run, hst, map_snd_tag]
    | none =>
      simp only [DiscordVoiceClient.runTagged, DiscordVoiceClient.run, hst, List.map_append,
        map_snd_tag, ih c1]

/-- An invariant of single steps holds along every run, on the tagged log. -/
theorem runTagged_invariant (sd : Sodium)
    (P : DiscordVoiceClient → List (Event × Effect) → Prop)
    (hstep : ∀ c tl e, P c tl →
      P (c.step sd e).1 (tl ++ (c.step sd e).2.1.map (fun x => (e, x))))
    (evs : List Event) :
    ∀ c tl, P c tl →
      P (DiscordVoiceClient.run sd c evs).1 (tl ++ DiscordVoiceClient.runTagged sd c evs) := by
  induction evs with
  | nil =>
    intro c tl h
    simpa [DiscordVoiceClient.run, DiscordVoiceClient.runTagged] using h
  | cons e es ih =>
    intro c tl h
    have hs := hstep c tl e h
    rcases hst : c.step sd e with ⟨c1, l1, f⟩
    rw [hst] at hs
    cases f with
    | some f => simpa [DiscordVoiceClient.run, DiscordVoiceClient.runTagged, hst] using hs
    | none =>
      have := ih c1 (tl ++ l1.map (fun x => (e, x))) hs
      simpa [DiscordVoiceClient.run, DiscordVoiceClient.runTagged, hst, List.append_assoc]
        using this

theorem map_tag_split (e : Event) (l : List Effect) :
    ∀ (a : List (Event × Effect)) (ev : Event) (y : Effect) (post : List (Event × Effect)),
      l.map (fun x => (e, x)) = a ++ (ev, y) :: post →
      ev = e ∧ ∃ l1 l2, l = l1 ++ y :: l2 ∧ a = l1.map (fun x => (e, x)) := by
  induction l with
  | nil => intro a ev y post h; simp at h
  | cons x xs ih =>
    intro a ev y post h
    cases a with
    | nil =>
      simp only [List.map_cons, List.nil_append, List.cons.injEq, Prod.mk.injEq] at h
      obtain ⟨⟨he, hx⟩, _⟩ := h
      exact ⟨he.symm, [], xs, by simp [hx], rfl⟩
    | cons b bs =>
      simp only [List.map_cons, List.cons_append, List.cons.injEq] at h
      obtain ⟨hb, ht⟩ := h
      obtain ⟨hev, l1, l2, hl, ha⟩ := ih bs ev y post ht
      exact ⟨hev, x :: l1, l2, by simp [hl], by simp [← hb, ha]⟩

theorem sendsAttributed_append (tl : List (Event × Effect)) (e : Event) (l1 : List Effect)
    (hg : SendsAttributed tl)
    (h1 : ∀ pre1 p d post, l1 = pre1 ++ Effect.udpSendEncrypted p d :: post →
      ((∃ s, Effect.udpSetSSRC s ∈ tl.map Prod.snd ++ pre1)
          ∧ (∃ k, Effect.udpSetSecretKey k ∈ tl.map Prod.snd ++ pre1))
        ∨ (e = Event.opusPacket p ∧ connectedAfter (tl.map Prod.snd ++ pre1) = true)) :
    SendsAttributed (tl ++ l1.map (fun x => (e, x))) := by
  intro pre ev p d post hsplit
  rcases List.append_eq_append_iff.mp hsplit with ⟨a, ha, hb⟩ | ⟨a, ha, hb⟩
  · obtain ⟨hev, m1, m2, hl, hamap⟩ := map_tag_split e l1 a ev _ post hb
    have hpre : pre.map Prod.snd = tl.map Prod.snd ++ m1 := by
      rw [ha, hamap, List.map_append, map_snd_tag]
    rw [hpre, hev]
    exact h1 m1 p d m2 hl
  · cases a with
    | nil =>
      simp only [List.append_nil] at ha
      have hb2 : l1.map (fun x => (e, x))
          = [] ++ (ev, Effect.udpSendEncrypted p d) :: post := by simpa using hb.symm
      obtain ⟨hev, m1, m2, hl, hamap⟩ := map_tag_split e l1 [] ev _ post hb2
      have hm1 : m1 = [] := by
        cases m1 with
        | nil => rfl
        | cons x xs => simp at hamap
      subst hm1
      have := h1 [] p d m2 hl
      rw [← ha, hev]
      simpa using this
    | cons x xs =>
      simp only [List.cons_append, List.cons.injEq] at hb
      obtain ⟨hx, _⟩ := hb
      subst hx
      exact hg pre ev p d xs ha

/-- C5 (amended): from a client with `m_connected = false`, in every run each
call of `UDPSocket::SendEncrypted` comes after calls of both `SetSSRC` and
`SetSecretKey`, or is made by the handler of an audio-ready event, for the
payload of that event, while `m_connected` is true. The tagged log is the log
of the run with the handling event attached to each effect. Every direct call
of `UDPSocket::Send` carries a discovery request or the keepalive marker
`13 37`. The flag `m_connected` is the one the connect and disconnect signals
in the log imply, and the audio-ready handler calls `SendEncrypted` exactly
when `m_connected` is true. -/
theorem C5_encrypted_sends_guarded (sd : Sodium) (c0 : DiscordVoiceClient)
    (h0 : c0.m_connected = false) (evs : List Event) :
    SendsAttributed (DiscordVoiceClient.runTagged sd c0 evs)
      ∧ (DiscordVoiceClient.runTagged sd c0 evs).map Prod.snd
          = (DiscordVoiceClient.run sd c0 evs).2.1
      ∧ RawSendsAllowed (DiscordVoiceClient.run sd c0 evs).2.1
      ∧ (DiscordVoiceClient.run sd c0 evs).1.m_connected
          = connectedAfter (DiscordVoiceClient.run sd c0 evs).2.1
      ∧ (∀ (c : DiscordVoiceClient) (payload : List Byte),
          (c.OnOpusPacket sd payload).2
            = if c.m_connected = true
              then [Effect.udpSendEncrypted payload (c.m_udp.SendEncrypted sd payload).2]
              else []) := by
  have hinv := runTagged_invariant sd
    (fun c tl => c.m_connected = connectedAfter (tl.map Prod.snd) ∧ SendsAttributed tl
      ∧ RawSendsAllowed (tl.map Prod.snd))
    (by
      intro c tl e ⟨hc, hg, hr⟩
      obtain ⟨hraw, hsend⟩ := step_udp_calls sd c e
      have hmap : (tl ++ (c.step sd e).2.1.map (fun x => (e, x))).map Prod.snd
          = tl.map Prod.snd ++ (c.step sd e).2.1 := by
        rw [List.map_append, map_snd_tag]
      refine ⟨?_, ?_, ?_⟩
      · rw [hmap]
        exact step_connectedAfter sd c (tl.map Prod.snd) e hc
      · apply sendsAttributed_append tl e _ hg
        intro pre1 p d post hl
        rcases hsend with hno | ⟨hconn, p1, d1, he, hone⟩ | ⟨w, s, k, rest, hsd⟩
        · exact absurd (by rw [hl]; simp) (hno p d)
        · rw [hone] at hl
          cases pre1 with
          | nil =>
            simp only [List.nil_append, List.cons.injEq, Effect.udpSendEncrypted.injEq] at hl
            right
            refine ⟨?_, ?_⟩
            · rw [he, hl.1.1]
            · rw [List.append_nil, ← hc, hconn]
          | cons x xs =>
            have := congrArg List.length hl
            simp at this
        · rw [hsd] at hl
          left
          match pre1, hl with
          | [], hl => simp at hl
          | [_], hl => simp at hl
          | [_, _], hl => simp at hl
          | x :: y :: z :: t, hl =>
            simp only [List.cons_append, List.cons.injEq] at hl
            obtain ⟨_, hy, hz, _⟩ := hl
            exact ⟨⟨s, by simp [← hy]⟩, ⟨k, by simp [← hz]⟩⟩
      · rw [hmap]
        intro b hb
        rcases List.mem_append.mp hb with h | h
        · exact hr b h
        · exact hraw b h) evs c0 []
    ⟨by rw [h0]; rfl, by
      intro pre ev p d post h
      have := congrArg List.length h
      simp at this
      omega, by
      intro b hb
      simp at hb⟩
  simp only [List.nil_append] at hinv
  have hlog := runTagged_map_snd sd evs c0
  rw [hlog] at hinv
  refine ⟨hinv.2.1, hlog, hinv.2.2, hinv.1, ?_⟩
  intro c payload
  cases hc : c.m_connected <;> simp [DiscordVoiceClient.OnOpusPacket, hc]

/-- C5 at a concrete input: Start, SessionDescription, an Opus packet, Stop and
one more Opus packet. -/
theorem C5_encrypted_sends_guarded_witness :
    exampleClient.m_connected = false
      ∧ SendsAttributed (DiscordVoiceClient.runTagged testSodium exampleClient
          [.Start, .wsMessage (.SessionDescription "xsalsa20_poly1305" zeroKey) [],
           .opusPacket silenceFrame, .Stop, .opusPacket silenceFrame])
      ∧ RawSendsAllowed (DiscordVoiceClient.run testSodium exampleClient
          [.Start, .wsMessage (.SessionDescription "xsalsa20_poly1305" zeroKey) [],
           .opusPacket silenceFrame, .Stop, .opusPacket silenceFrame]).2.1 :=
  ⟨rfl,
    (C5_encrypted_sends_guarded testSodium exampleClient rfl
      [.Start, .wsMessage (.SessionDescription "xsalsa20_poly1305" zeroKey) [],
       .opusPacket silenceFrame, .Stop, .opusPacket silenceFrame]).1,
    (C5_encrypted_sends_guarded testSodium exampleClient rfl
      [.Start, .wsMessage (.SessionDescription "xsalsa20_poly1305" zeroKey) [],
       .opusPacket silenceFrame, .Stop, .opusPacket silenceFrame]).2.2.1⟩

/-- C5 (counterexample): after Start, one audio-ready event makes the client
call `SendEncrypted` although neither `SetSSRC` nor `SetSecretKey` has been
called. -/
theorem C5_send_before_setters :
    ¬ SendsPrecededBySetters
        (DiscordVoiceClient.run testSodium (DiscordVoiceClient.init 0 [])
          [.Start, .opusPacket silenceFrame]).2.1 := by
  intro h
  have := h [Effect.wsStartConnection "wss:///?v=7", Effect.signal_connected] silenceFrame
    ((UDPSocket.init 0 []).SendEncrypted testSodium silenceFrame).2 [] rfl
  simp at this

end Abaddon
